import Mathlib

/-!
# Verification of the `fastnum` streaming-statistics library

Shallow embedding of the three components of `fastnum`:

* `RunningStats` — online mean/variance via Welford's recurrence
  (`src/include/fastnum/running_stats.hpp`);
* `OnlineCovariance` — bivariate Welford update, covariance, correlation and
  merge (`src/unnamed/part_003`, superset of
  `src/include/fastnum/online_covariance.hpp`);
* `OnlineStandardScaler` — z-score transform over a `RunningStats`
  (`src/include/fastnum/online_standard_scaler.hpp`).

Modelling conventions:

* The numeric type `T` (instantiated at `double` in the code) is modelled as
  `ℚ`, i.e. exact arithmetic; claims stated "up to rounding; exactly in exact
  arithmetic" become exact equalities.
* IEEE quiet NaN returned by an accessor is modelled as `none : Option _`;
  a defined value `v` is `some v`.  In exact rational arithmetic a stored
  field is never NaN (for real-valued inputs), so `std::isnan` tests on
  accessor results correspond to matching on the `Option`.
* `std::sqrt` appears only in `correlation` and in the scaler's `transform`;
  those results live in `Option ℝ` via `Real.sqrt`.
* The C++ batch entry points take `pointer + length`; a buffer is modelled as
  `Option (List ℚ)` where `none` is the null pointer and the list length is
  the `n` argument.
-/

/-- The fixed variance-floor constant `eps_ = 1e-12`, identical in
`OnlineCovariance` and `OnlineStandardScaler` and never mutated. -/
def fastnumEps : ℚ := 1 / 10 ^ 12

/-- State of `fastnum::RunningStats<T>`: fields `n_`, `mean_`, `m2_`,
default-initialised to `0`. -/
structure RunningStats where
  n : ℕ
  mean : ℚ
  m2 : ℚ
deriving DecidableEq, Repr

/-- The default-constructed (empty) accumulator. -/
def RunningStats.empty : RunningStats := ⟨0, 0, 0⟩

/-- `RunningStats::push`: Welford's recurrence.  `delta` is taken against the
old mean, the mean is updated, `delta2` is taken against the new mean, and
`m2 += delta * delta2`. -/
def RunningStats.push (s : RunningStats) (x : ℚ) : RunningStats :=
  let n' := s.n + 1
  let delta := x - s.mean
  let mean' := s.mean + delta / (n' : ℚ)
  let delta2 := x - mean'
  ⟨n', mean', s.m2 + delta * delta2⟩

/-- `RunningStats::merge`: Chan's parallel combination.  An empty `other` is a
no-op; merging into an empty accumulator copies `other`; otherwise the means
are combined as a weighted average and `m2 += other.m2 + delta^2 * nA*nB/n`. -/
def RunningStats.merge (a b : RunningStats) : RunningStats :=
  if b.n = 0 then a
  else if a.n = 0 then b
  else
    let nA : ℚ := (a.n : ℚ)
    let nB : ℚ := (b.n : ℚ)
    let nT : ℚ := nA + nB
    let delta := b.mean - a.mean
    ⟨a.n + b.n, (nA * a.mean + nB * b.mean) / nT,
      a.m2 + b.m2 + (delta * delta) * (nA * nB / nT)⟩

/-- `RunningStats::variance_population`: `m2 / n` for `n ≥ 1`, NaN (`none`)
otherwise. -/
def RunningStats.variance_population (s : RunningStats) : Option ℚ :=
  if s.n < 1 then none else some (s.m2 / (s.n : ℚ))

/-- `RunningStats::variance_sample`: `m2 / (n - 1)` for `n ≥ 2`, NaN (`none`)
otherwise.  The code divides by `static_cast<T>(n_ - 1)` with `n_ : size_t`,
hence the natural subtraction inside the cast. -/
def RunningStats.variance_sample (s : RunningStats) : Option ℚ :=
  if s.n < 2 then none else some (s.m2 / ((s.n - 1 : ℕ) : ℚ))

/-- `RunningStats::reset`: all three fields return to `0`. -/
def RunningStats.reset (_s : RunningStats) : RunningStats := ⟨0, 0, 0⟩

/-- Single-pass accumulation of a whole stream, in order, from the empty
accumulator: the reference point for the merge claims. -/
def RunningStats.ofList (xs : List ℚ) : RunningStats :=
  xs.foldl RunningStats.push RunningStats.empty

/-- State of `fastnum::OnlineCovariance<T>` (`src/unnamed/part_003`): fields
`n_`, `mean_x_`, `mean_y_`, `m2_x_`, `m2_y_`, `c_`, all default `0`.  The
`eps_` member is the never-mutated constant `fastnumEps`. -/
structure OnlineCovariance where
  n : ℕ
  mean_x : ℚ
  mean_y : ℚ
  m2_x : ℚ
  m2_y : ℚ
  c : ℚ
deriving DecidableEq, Repr

/-- The default-constructed (empty) paired accumulator. -/
def OnlineCovariance.empty : OnlineCovariance := ⟨0, 0, 0, 0, 0, 0⟩

/-- `OnlineCovariance::observe(x, y)`: bivariate Welford step.  Deltas `dx`,
`dy` against the old means, means updated via `* inv_n`, deltas `dx2`, `dy2`
against the new means, then `m2x += dx*dx2`, `m2y += dy*dy2` and the cross
moment `c += dx*dy2` (old x-delta times new y-delta). -/
def OnlineCovariance.observe (s : OnlineCovariance) (x y : ℚ) : OnlineCovariance :=
  let n' := s.n + 1
  let dx := x - s.mean_x
  let dy := y - s.mean_y
  let inv_n : ℚ := 1 / (n' : ℚ)
  let mx := s.mean_x + dx * inv_n
  let my := s.mean_y + dy * inv_n
  let dx2 := x - mx
  let dy2 := y - my
  ⟨n', mx, my, s.m2_x + dx * dx2, s.m2_y + dy * dy2, s.c + dx * dy2⟩

/-- `OnlineCovariance::merge`: empty `other` is a no-op, empty `self` copies
`other`; otherwise means move by `d * nB/n` and the three second moments each
gain the cross term `* (nA*nB/n)`. -/
def OnlineCovariance.merge (a b : OnlineCovariance) : OnlineCovariance :=
  if b.n = 0 then a
  else if a.n = 0 then b
  else
    let nA : ℚ := (a.n : ℚ)
    let nB : ℚ := (b.n : ℚ)
    let nT : ℚ := nA + nB
    let dx := b.mean_x - a.mean_x
    let dy := b.mean_y - a.mean_y
    ⟨a.n + b.n,
      a.mean_x + dx * (nB / nT),
      a.mean_y + dy * (nB / nT),
      a.m2_x + b.m2_x + dx * dx * (nA * nB / nT),
      a.m2_y + b.m2_y + dy * dy * (nA * nB / nT),
      a.c + b.c + dx * dy * (nA * nB / nT)⟩

/-- `OnlineCovariance::variance_x_population`: `m2x / n` for `n ≥ 1`, else NaN. -/
def OnlineCovariance.variance_x_population (s : OnlineCovariance) : Option ℚ :=
  if s.n < 1 then none else some (s.m2_x / (s.n : ℚ))

/-- `OnlineCovariance::variance_y_population`: `m2y / n` for `n ≥ 1`, else NaN. -/
def OnlineCovariance.variance_y_population (s : OnlineCovariance) : Option ℚ :=
  if s.n < 1 then none else some (s.m2_y / (s.n : ℚ))

/-- `OnlineCovariance::variance_x_sample`: `m2x / (n-1)` for `n ≥ 2`, else NaN. -/
def OnlineCovariance.variance_x_sample (s : OnlineCovariance) : Option ℚ :=
  if s.n < 2 then none else some (s.m2_x / ((s.n - 1 : ℕ) : ℚ))

/-- `OnlineCovariance::variance_y_sample`: `m2y / (n-1)` for `n ≥ 2`, else NaN. -/
def OnlineCovariance.variance_y_sample (s : OnlineCovariance) : Option ℚ :=
  if s.n < 2 then none else some (s.m2_y / ((s.n - 1 : ℕ) : ℚ))

/-- `OnlineCovariance::covariance_population`: `c / n` for `n ≥ 1`, else NaN. -/
def OnlineCovariance.covariance_population (s : OnlineCovariance) : Option ℚ :=
  if s.n < 1 then none else some (s.c / (s.n : ℚ))

/-- `OnlineCovariance::covariance_sample`: `c / (n-1)` for `n ≥ 2`, else NaN. -/
def OnlineCovariance.covariance_sample (s : OnlineCovariance) : Option ℚ :=
  if s.n < 2 then none else some (s.c / ((s.n - 1 : ℕ) : ℚ))

/-- `OnlineCovariance::ready`: false for `n < 2`; then the two population
variances are read (`some` values, since `n ≥ 2`; the wildcard row is the
`std::isnan` guard, unreachable over exact arithmetic) and compared with
`eps_ * eps_`. -/
def OnlineCovariance.ready (s : OnlineCovariance) : Bool :=
  if s.n < 2 then false
  else
    match s.variance_x_population, s.variance_y_population with
    | some vx, some vy =>
        if vx ≤ fastnumEps * fastnumEps ∨ vy ≤ fastnumEps * fastnumEps then false
        else true
    | _, _ => false

/-- `OnlineCovariance::correlation`: NaN unless `ready()`; then
`covariance_population / sqrt(vx * vy)` with a NaN guard when the denominator
is `≤ eps_` (the `std::isnan(denom)` branch cannot fire over exact reals,
where `Real.sqrt` is total).  Under the ready guard `n ≥ 2`, so the three
accessors read here are `some` values and `getD 0` extracts them. -/
noncomputable def OnlineCovariance.correlation (s : OnlineCovariance) : Option ℝ :=
  if s.ready = false then none
  else
    let vx := s.variance_x_population.getD 0
    let vy := s.variance_y_population.getD 0
    let denom : ℝ := Real.sqrt ((vx : ℝ) * (vy : ℝ))
    if denom ≤ ((fastnumEps : ℚ) : ℝ) then none
    else some ((s.covariance_population.getD 0 : ℝ) / denom)

/-- `OnlineCovariance::reset`: zeroes all six accumulated fields. -/
def OnlineCovariance.reset (_s : OnlineCovariance) : OnlineCovariance :=
  ⟨0, 0, 0, 0, 0, 0⟩

/-- Single-pass accumulation of a whole stream of pairs, in order. -/
def OnlineCovariance.ofList (ps : List (ℚ × ℚ)) : OnlineCovariance :=
  ps.foldl (fun s p => s.observe p.1 p.2) OnlineCovariance.empty

/-- `OnlineCovariance::observe(xs, ys, n)` (pointer + length): no-op when
either pointer is null or `n == 0`, otherwise the scalar `observe` applied to
`xs[i], ys[i]` for `i = 0..n-1` in order. -/
def OnlineCovariance.observeBatch (s : OnlineCovariance)
    (xs ys : Option (List ℚ)) : OnlineCovariance :=
  match xs, ys with
  | some a, some b =>
      if a.length = 0 then s
      else (a.zip b).foldl (fun t p => t.observe p.1 p.2) s
  | _, _ => s

/-- State of `fastnum::OnlineStandardScaler<T>`: owns one `RunningStats`;
its `eps_` member is the never-mutated constant `fastnumEps`. -/
structure OnlineStandardScaler where
  stats : RunningStats
deriving DecidableEq, Repr

/-- The default-constructed (unfitted) scaler. -/
def OnlineStandardScaler.empty : OnlineStandardScaler := ⟨RunningStats.empty⟩

/-- `OnlineStandardScaler::observe(x)`: delegates to `RunningStats::push`. -/
def OnlineStandardScaler.observe (s : OnlineStandardScaler) (x : ℚ) :
    OnlineStandardScaler := ⟨s.stats.push x⟩

/-- `OnlineStandardScaler::observe(xs, n)` (pointer + length): no-op on a null
pointer or `n == 0`, otherwise pushes `xs[i]` for `i = 0..n-1` in order. -/
def OnlineStandardScaler.observeBatch (s : OnlineStandardScaler)
    (xs : Option (List ℚ)) : OnlineStandardScaler :=
  match xs with
  | some a => if a.length = 0 then s else ⟨a.foldl RunningStats.push s.stats⟩
  | none => s

/-- `OnlineStandardScaler::ready`: false for `count < 2`; then the population
variance is read (the wildcard row is the `std::isnan` guard, unreachable over
exact arithmetic) and compared with `eps_ * eps_`. -/
def OnlineStandardScaler.ready (s : OnlineStandardScaler) : Bool :=
  if s.stats.n < 2 then false
  else
    match s.stats.variance_population with
    | some v => if v ≤ fastnumEps * fastnumEps then false else true
    | none => false

/-- `OnlineStandardScaler::transform(x)`: NaN when not ready, otherwise
`(x - mean) * inv_std` with `inv_std = 1 / sqrt(variance_population())`.
Under the ready guard the variance is a `some` value; `getD 0` extracts it. -/
noncomputable def OnlineStandardScaler.transform (s : OnlineStandardScaler)
    (x : ℚ) : Option ℝ :=
  if s.ready = false then none
  else
    some (((x : ℝ) - (s.stats.mean : ℝ)) *
      (1 / Real.sqrt ((s.stats.variance_population.getD 0 : ℚ) : ℝ)))

/-- `OnlineStandardScaler::transform_inplace(xs, n)`: no-op for an empty
buffer; on a not-ready scaler every element is overwritten with NaN;
otherwise every element is standardized with the same `mu` and `inv_std`. -/
noncomputable def OnlineStandardScaler.transform_inplace
    (s : OnlineStandardScaler) (xs : List ℚ) : List (Option ℝ) :=
  if xs.length = 0 then []
  else if s.ready = false then xs.map (fun _ => (none : Option ℝ))
  else
    xs.map (fun (x : ℚ) => some (((x : ℝ) - (s.stats.mean : ℝ)) *
      (1 / Real.sqrt ((s.stats.variance_population.getD 0 : ℚ) : ℝ))))

/-- `OnlineStandardScaler::merge`: delegates to `RunningStats::merge`. -/
def OnlineStandardScaler.merge (a b : OnlineStandardScaler) :
    OnlineStandardScaler := ⟨a.stats.merge b.stats⟩

/-- `OnlineStandardScaler::reset`: delegates to `RunningStats::reset`. -/
def OnlineStandardScaler.reset (s : OnlineStandardScaler) :
    OnlineStandardScaler := ⟨s.stats.reset⟩

/-- Single-pass accumulation of a scalar stream into a scaler. -/
def OnlineStandardScaler.ofList (xs : List ℚ) : OnlineStandardScaler :=
  xs.foldl OnlineStandardScaler.observe OnlineStandardScaler.empty

/-! ## Two-pass reference quantities

Raw power sums of a stream; the closed forms against which the one-pass
accumulators are verified. -/

/-- Sum of squares of a scalar stream. -/
def sumSq (l : List ℚ) : ℚ := (l.map fun x => x * x).sum

@[simp] theorem sumSq_nil : sumSq [] = 0 := rfl

@[simp] theorem sumSq_append (l₁ l₂ : List ℚ) :
    sumSq (l₁ ++ l₂) = sumSq l₁ + sumSq l₂ := by
  simp [sumSq]

/-! ## Representation invariant for `RunningStats`

`RSrep l s` says that state `s` is exactly the state denoted by the history
`l`: count is the length, and mean / m2 are the closed two-pass forms (or the
reset values `0` for the empty history).  The three accumulating operations
preserve it, and it determines the state from the length and the first two
power sums of the history. -/

def RSrep (l : List ℚ) (s : RunningStats) : Prop :=
  s.n = l.length ∧
  (l.length = 0 → s.mean = 0 ∧ s.m2 = 0) ∧
  (0 < l.length →
    s.mean = l.sum / (l.length : ℚ) ∧
    s.m2 = sumSq l - l.sum * l.sum / (l.length : ℚ))

/-- Sum of the x components of a paired stream. -/
def sumFst (ps : List (ℚ × ℚ)) : ℚ := (ps.map Prod.fst).sum

/-- Sum of the y components of a paired stream. -/
def sumSnd (ps : List (ℚ × ℚ)) : ℚ := (ps.map Prod.snd).sum

/-- Sum of squared x components. -/
def sumFstSq (ps : List (ℚ × ℚ)) : ℚ := (ps.map fun p => p.1 * p.1).sum

/-- Sum of squared y components. -/
def sumSndSq (ps : List (ℚ × ℚ)) : ℚ := (ps.map fun p => p.2 * p.2).sum

/-- Sum of the products `x * y` over a paired stream. -/
def sumCross (ps : List (ℚ × ℚ)) : ℚ := (ps.map fun p => p.1 * p.2).sum

@[simp] theorem sumFst_append (l₁ l₂ : List (ℚ × ℚ)) :
    sumFst (l₁ ++ l₂) = sumFst l₁ + sumFst l₂ := by simp [sumFst]

@[simp] theorem sumSnd_append (l₁ l₂ : List (ℚ × ℚ)) :
    sumSnd (l₁ ++ l₂) = sumSnd l₁ + sumSnd l₂ := by simp [sumSnd]

@[simp] theorem sumFstSq_append (l₁ l₂ : List (ℚ × ℚ)) :
    sumFstSq (l₁ ++ l₂) = sumFstSq l₁ + sumFstSq l₂ := by simp [sumFstSq]

@[simp] theorem sumSndSq_append (l₁ l₂ : List (ℚ × ℚ)) :
    sumSndSq (l₁ ++ l₂) = sumSndSq l₁ + sumSndSq l₂ := by simp [sumSndSq]

@[simp] theorem sumCross_append (l₁ l₂ : List (ℚ × ℚ)) :
    sumCross (l₁ ++ l₂) = sumCross l₁ + sumCross l₂ := by simp [sumCross]

/-! ## Representation invariant for `OnlineCovariance` -/

def CovRep (l : List (ℚ × ℚ)) (s : OnlineCovariance) : Prop :=
  s.n = l.length ∧
  (l.length = 0 →
    s.mean_x = 0 ∧ s.mean_y = 0 ∧ s.m2_x = 0 ∧ s.m2_y = 0 ∧ s.c = 0) ∧
  (0 < l.length →
    s.mean_x = sumFst l / (l.length : ℚ) ∧
    s.mean_y = sumSnd l / (l.length : ℚ) ∧
    s.m2_x = sumFstSq l - sumFst l * sumFst l / (l.length : ℚ) ∧
    s.m2_y = sumSndSq l - sumSnd l * sumSnd l / (l.length : ℚ) ∧
    s.c = sumCross l - sumFst l * sumSnd l / (l.length : ℚ))

/-! ## Two-pass (reference) statistics and the explicit claims -/

/-- Exact arithmetic mean of a scalar stream. -/
def listMean (l : List ℚ) : ℚ := l.sum / (l.length : ℚ)

/-- Exact sum of squared deviations from the mean of the stream. -/
def devSq (l : List ℚ) : ℚ :=
  (l.map fun x => (x - listMean l) * (x - listMean l)).sum

/-- Exact mean of the x components. -/
def meanFst (ps : List (ℚ × ℚ)) : ℚ := sumFst ps / (ps.length : ℚ)

/-- Exact mean of the y components. -/
def meanSnd (ps : List (ℚ × ℚ)) : ℚ := sumSnd ps / (ps.length : ℚ)

/-- Two-pass cross-deviation sum `Σ (x - mean_x) * (y - mean_y)`. -/
def crossDev (ps : List (ℚ × ℚ)) : ℚ :=
  (ps.map fun p => (p.1 - meanFst ps) * (p.2 - meanSnd ps)).sum

/-- Two-pass x deviation-square sum `Σ (x - mean_x)^2`. -/
def devSqFst (ps : List (ℚ × ℚ)) : ℚ :=
  (ps.map fun p => (p.1 - meanFst ps) * (p.1 - meanFst ps)).sum

/-- Two-pass y deviation-square sum `Σ (y - mean_y)^2`. -/
def devSqSnd (ps : List (ℚ × ℚ)) : ℚ :=
  (ps.map fun p => (p.2 - meanSnd ps) * (p.2 - meanSnd ps)).sum

/-! ## Reachable states and sign invariants -/

/-- States of `RunningStats` reachable from the default-constructed
accumulator by `push`, `merge` (of two reachable states) and `reset`. -/
inductive RSReachable : RunningStats → Prop
  | empty : RSReachable RunningStats.empty
  | push (s : RunningStats) (x : ℚ) : RSReachable s → RSReachable (s.push x)
  | merge (a b : RunningStats) :
      RSReachable a → RSReachable b → RSReachable (a.merge b)
  | reset (s t : RunningStats) : RSReachable s → RSReachable (t.reset)

/-- States of `OnlineCovariance` reachable from the default-constructed
accumulator by `observe`, `merge` (of two reachable states) and `reset`. -/
inductive CovReachable : OnlineCovariance → Prop
  | empty : CovReachable OnlineCovariance.empty
  | observe (s : OnlineCovariance) (x y : ℚ) :
      CovReachable s → CovReachable (s.observe x y)
  | merge (a b : OnlineCovariance) :
      CovReachable a → CovReachable b → CovReachable (a.merge b)
  | reset (s t : OnlineCovariance) : CovReachable s → CovReachable (t.reset)

/-! ## Theorems -/

theorem RSrep_empty : RSrep [] RunningStats.empty := by
  refine ⟨rfl, fun _ => ⟨rfl, rfl⟩, fun h => absurd h (by simp)⟩

theorem RunningStats.push_n (s : RunningStats) (x : ℚ) :
    (s.push x).n = s.n + 1 := rfl

theorem RunningStats.push_mean (s : RunningStats) (x : ℚ) :
    (s.push x).mean = s.mean + (x - s.mean) / ((s.n + 1 : ℕ) : ℚ) := rfl

theorem RunningStats.push_m2 (s : RunningStats) (x : ℚ) :
    (s.push x).m2 =
      s.m2 + (x - s.mean) *
        (x - (s.mean + (x - s.mean) / ((s.n + 1 : ℕ) : ℚ))) := rfl

theorem RSrep_push {l : List ℚ} {s : RunningStats} (h : RSrep l s) (x : ℚ) :
    RSrep (l ++ [x]) (s.push x) := by
  obtain ⟨hn, h0, hpos⟩ := h
  rcases Nat.eq_zero_or_pos l.length with hz | hp
  · obtain ⟨hm, hq⟩ := h0 hz
    obtain rfl : l = [] := List.length_eq_zero.mp hz
    refine ⟨by simp [RunningStats.push_n, hn], by simp, fun _ => ?_⟩
    constructor
    · simp [RunningStats.push_mean, hm, hn]
    · simp [RunningStats.push_m2, RunningStats.push_mean, hm, hq, hn, sumSq]
  · obtain ⟨hm, hq⟩ := hpos hp
    have hNz : ((l.length : ℚ)) ≠ 0 := by positivity
    have hN1z : ((l.length : ℚ) + 1) ≠ 0 := by positivity
    refine ⟨by simp [RunningStats.push_n, hn], by simp, fun _ => ?_⟩
    constructor
    · rw [RunningStats.push_mean, hm, hn]
      simp only [List.sum_append, List.length_append, List.sum_cons,
        List.sum_nil, List.length_cons, List.length_nil]
      push_cast
      field_simp
      ring
    · rw [RunningStats.push_m2, hq, hm, hn]
      simp only [List.sum_append, List.length_append, sumSq_append,
        List.sum_cons, List.sum_nil, List.length_cons, List.length_nil,
        sumSq, List.map_cons, List.map_nil]
      push_cast
      field_simp
      ring

theorem RSrep_merge {la lb : List ℚ} {a b : RunningStats}
    (ha : RSrep la a) (hb : RSrep lb b) : RSrep (la ++ lb) (a.merge b) := by
  obtain ⟨han, ha0, hap⟩ := ha
  obtain ⟨hbn, hb0, hbp⟩ := hb
  rcases Nat.eq_zero_or_pos lb.length with hbz | hbpos
  · obtain rfl : lb = [] := List.length_eq_zero.mp hbz
    have hbne : b.n = 0 := by simpa using hbn
    have hab : a.merge b = a := by
      rw [RunningStats.merge]
      simp [hbne]
    rw [hab]
    simpa using ⟨han, ha0, hap⟩
  rcases Nat.eq_zero_or_pos la.length with haz | hapos
  · obtain rfl : la = [] := List.length_eq_zero.mp haz
    have hane : a.n = 0 := by simpa using han
    have hbne : b.n ≠ 0 := by omega
    have hab : a.merge b = b := by
      rw [RunningStats.merge]
      simp [hbne, hane]
    rw [hab]
    simpa using ⟨hbn, hb0, hbp⟩
  · obtain ⟨ham, haq⟩ := hap hapos
    obtain ⟨hbm, hbq⟩ := hbp hbpos
    have hanz : a.n ≠ 0 := by omega
    have hbnz : b.n ≠ 0 := by omega
    have hmerge : a.merge b =
        ⟨a.n + b.n,
          ((a.n : ℚ) * a.mean + (b.n : ℚ) * b.mean) / ((a.n : ℚ) + (b.n : ℚ)),
          a.m2 + b.m2 + ((b.mean - a.mean) * (b.mean - a.mean)) *
            ((a.n : ℚ) * (b.n : ℚ) / ((a.n : ℚ) + (b.n : ℚ)))⟩ := by
      rw [RunningStats.merge]
      simp [hanz, hbnz]
    have hAz : ((la.length : ℚ)) ≠ 0 := by positivity
    have hBz : ((lb.length : ℚ)) ≠ 0 := by positivity
    have hABz : ((la.length : ℚ) + (lb.length : ℚ)) ≠ 0 := by positivity
    refine ⟨by simp [hmerge, han, hbn], fun hc => ?_, fun _ => ?_⟩
    · exfalso
      rw [List.length_append] at hc
      omega
    constructor
    · rw [hmerge]
      simp only [List.sum_append, List.length_append]
      rw [ham, hbm, han, hbn]
      push_cast
      field_simp
      try ring
    · rw [hmerge]
      simp only [List.sum_append, List.length_append, sumSq_append]
      rw [ham, hbm, haq, hbq, han, hbn]
      push_cast
      field_simp
      try ring

theorem RSrep_foldl {l : List ℚ} {s : RunningStats} (h : RSrep l s) :
    ∀ l' : List ℚ, RSrep (l ++ l') (l'.foldl RunningStats.push s) := by
  intro l'
  induction l' generalizing l s with
  | nil => simpa using h
  | cons x t ih =>
      have hx := RSrep_push h x
      have := ih hx
      simpa [List.append_assoc] using this

theorem RSrep_ofList (l : List ℚ) : RSrep l (RunningStats.ofList l) := by
  simpa using RSrep_foldl RSrep_empty l

theorem RSrep_unique {l l' : List ℚ} {s s' : RunningStats}
    (h : RSrep l s) (h' : RSrep l' s')
    (hlen : l.length = l'.length) (hsum : l.sum = l'.sum)
    (hsq : sumSq l = sumSq l') : s = s' := by
  obtain ⟨hn, h0, hp⟩ := h
  obtain ⟨hn', h0', hp'⟩ := h'
  cases s with
  | mk n mean m2 =>
    cases s' with
    | mk n' mean' m2' =>
      rcases Nat.eq_zero_or_pos l.length with hz | hpos
      · obtain ⟨hm, hq⟩ := h0 hz
        obtain ⟨hm', hq'⟩ := h0' (hlen ▸ hz)
        simp_all
      · obtain ⟨hm, hq⟩ := hp hpos
        obtain ⟨hm', hq'⟩ := hp' (hlen ▸ hpos)
        simp_all

/-- Merging the accumulator of a prefix with that of the matching suffix
recovers the single-pass accumulator of the whole stream. -/
theorem RunningStats.merge_take_drop_single_pass (xs : List ℚ) (k : ℕ) :
    (RunningStats.ofList (xs.take k)).merge (RunningStats.ofList (xs.drop k)) =
      RunningStats.ofList xs := by
  have h := RSrep_merge (RSrep_ofList (xs.take k)) (RSrep_ofList (xs.drop k))
  rw [List.take_append_drop] at h
  exact RSrep_unique h (RSrep_ofList xs) rfl rfl rfl

theorem CovRep_empty : CovRep [] OnlineCovariance.empty := by
  exact ⟨rfl, fun _ => ⟨rfl, rfl, rfl, rfl, rfl⟩, fun h => absurd h (by simp)⟩

theorem OnlineCovariance.observe_n (s : OnlineCovariance) (x y : ℚ) :
    (s.observe x y).n = s.n + 1 := rfl

theorem OnlineCovariance.observe_mean_x (s : OnlineCovariance) (x y : ℚ) :
    (s.observe x y).mean_x =
      s.mean_x + (x - s.mean_x) * (1 / ((s.n + 1 : ℕ) : ℚ)) := rfl

theorem OnlineCovariance.observe_mean_y (s : OnlineCovariance) (x y : ℚ) :
    (s.observe x y).mean_y =
      s.mean_y + (y - s.mean_y) * (1 / ((s.n + 1 : ℕ) : ℚ)) := rfl

theorem OnlineCovariance.observe_m2_x (s : OnlineCovariance) (x y : ℚ) :
    (s.observe x y).m2_x =
      s.m2_x + (x - s.mean_x) *
        (x - (s.mean_x + (x - s.mean_x) * (1 / ((s.n + 1 : ℕ) : ℚ)))) := rfl

theorem OnlineCovariance.observe_m2_y (s : OnlineCovariance) (x y : ℚ) :
    (s.observe x y).m2_y =
      s.m2_y + (y - s.mean_y) *
        (y - (s.mean_y + (y - s.mean_y) * (1 / ((s.n + 1 : ℕ) : ℚ)))) := rfl

theorem OnlineCovariance.observe_c (s : OnlineCovariance) (x y : ℚ) :
    (s.observe x y).c =
      s.c + (x - s.mean_x) *
        (y - (s.mean_y + (y - s.mean_y) * (1 / ((s.n + 1 : ℕ) : ℚ)))) := rfl

theorem CovRep_observe {l : List (ℚ × ℚ)} {s : OnlineCovariance}
    (h : CovRep l s) (x y : ℚ) : CovRep (l ++ [(x, y)]) (s.observe x y) := by
  obtain ⟨hn, h0, hpos⟩ := h
  rcases Nat.eq_zero_or_pos l.length with hz | hp
  · obtain ⟨hmx, hmy, hqx, hqy, hc⟩ := h0 hz
    obtain rfl : l = [] := List.length_eq_zero.mp hz
    refine ⟨by simp [OnlineCovariance.observe_n, hn], by simp, fun _ => ?_⟩
    refine ⟨?_, ?_, ?_, ?_, ?_⟩
    · simp [OnlineCovariance.observe_mean_x, hmx, hn, sumFst]
    · simp [OnlineCovariance.observe_mean_y, hmy, hn, sumSnd]
    · simp [OnlineCovariance.observe_m2_x, OnlineCovariance.observe_mean_x,
        hmx, hqx, hn, sumFst, sumFstSq]
    · simp [OnlineCovariance.observe_m2_y, OnlineCovariance.observe_mean_y,
        hmy, hqy, hn, sumSnd, sumSndSq]
    · simp [OnlineCovariance.observe_c, hmx, hmy, hc, hn, sumFst, sumSnd,
        sumCross]
  · obtain ⟨hmx, hmy, hqx, hqy, hc⟩ := hpos hp
    have hNz : ((l.length : ℚ)) ≠ 0 := by positivity
    have hN1z : ((l.length : ℚ) + 1) ≠ 0 := by positivity
    have hL : ((l ++ [(x, y)]).length : ℚ) = (l.length : ℚ) + 1 := by
      push_cast [List.length_append, List.length_cons, List.length_nil]
      ring
    have hLpos : 0 < (l ++ [(x, y)]).length := by simp
    refine ⟨by simp [OnlineCovariance.observe_n, hn], by simp, fun _ => ?_⟩
    have hsx : sumFst (l ++ [(x, y)]) = sumFst l + x := by simp [sumFst]
    have hsy : sumSnd (l ++ [(x, y)]) = sumSnd l + y := by simp [sumSnd]
    have hsxx : sumFstSq (l ++ [(x, y)]) = sumFstSq l + x * x := by
      simp [sumFstSq]
    have hsyy : sumSndSq (l ++ [(x, y)]) = sumSndSq l + y * y := by
      simp [sumSndSq]
    have hsxy : sumCross (l ++ [(x, y)]) = sumCross l + x * y := by
      simp [sumCross]
    refine ⟨?_, ?_, ?_, ?_, ?_⟩
    · rw [OnlineCovariance.observe_mean_x, hmx, hn, hL, hsx]
      push_cast
      field_simp
      try ring
    · rw [OnlineCovariance.observe_mean_y, hmy, hn, hL, hsy]
      push_cast
      field_simp
      try ring
    · rw [OnlineCovariance.observe_m2_x, hqx, hmx, hn, hL, hsx, hsxx]
      push_cast
      field_simp
      try ring
    · rw [OnlineCovariance.observe_m2_y, hqy, hmy, hn, hL, hsy, hsyy]
      push_cast
      field_simp
      try ring
    · rw [OnlineCovariance.observe_c, hc, hmx, hmy, hn, hL, hsx, hsy, hsxy]
      push_cast
      field_simp
      try ring

theorem CovRep_merge {la lb : List (ℚ × ℚ)} {a b : OnlineCovariance}
    (ha : CovRep la a) (hb : CovRep lb b) : CovRep (la ++ lb) (a.merge b) := by
  obtain ⟨han, ha0, hap⟩ := ha
  obtain ⟨hbn, hb0, hbp⟩ := hb
  rcases Nat.eq_zero_or_pos lb.length with hbz | hbpos
  · obtain rfl : lb = [] := List.length_eq_zero.mp hbz
    have hbne : b.n = 0 := by simpa using hbn
    have hab : a.merge b = a := by
      rw [OnlineCovariance.merge]
      simp [hbne]
    rw [hab]
    simpa using ⟨han, ha0, hap⟩
  rcases Nat.eq_zero_or_pos la.length with haz | hapos
  · obtain rfl : la = [] := List.length_eq_zero.mp haz
    have hane : a.n = 0 := by simpa using han
    have hbne : b.n ≠ 0 := by omega
    have hab : a.merge b = b := by
      rw [OnlineCovariance.merge]
      simp [hbne, hane]
    rw [hab]
    simpa using ⟨hbn, hb0, hbp⟩
  · obtain ⟨hamx, hamy, haqx, haqy, hac⟩ := hap hapos
    obtain ⟨hbmx, hbmy, hbqx, hbqy, hbc⟩ := hbp hbpos
    have hanz : a.n ≠ 0 := by omega
    have hbnz : b.n ≠ 0 := by omega
    have hmerge : a.merge b =
        ⟨a.n + b.n,
          a.mean_x + (b.mean_x - a.mean_x) * ((b.n : ℚ) / ((a.n : ℚ) + (b.n : ℚ))),
          a.mean_y + (b.mean_y - a.mean_y) * ((b.n : ℚ) / ((a.n : ℚ) + (b.n : ℚ))),
          a.m2_x + b.m2_x + (b.mean_x - a.mean_x) * (b.mean_x - a.mean_x) *
            ((a.n : ℚ) * (b.n : ℚ) / ((a.n : ℚ) + (b.n : ℚ))),
          a.m2_y + b.m2_y + (b.mean_y - a.mean_y) * (b.mean_y - a.mean_y) *
            ((a.n : ℚ) * (b.n : ℚ) / ((a.n : ℚ) + (b.n : ℚ))),
          a.c + b.c + (b.mean_x - a.mean_x) * (b.mean_y - a.mean_y) *
            ((a.n : ℚ) * (b.n : ℚ) / ((a.n : ℚ) + (b.n : ℚ)))⟩ := by
      rw [OnlineCovariance.merge]
      simp [hanz, hbnz]
    have hAz : ((la.length : ℚ)) ≠ 0 := by positivity
    have hBz : ((lb.length : ℚ)) ≠ 0 := by positivity
    have hABz : ((la.length : ℚ) + (lb.length : ℚ)) ≠ 0 := by positivity
    refine ⟨by simp [hmerge, han, hbn], fun hc' => ?_, fun _ => ?_⟩
    · exfalso
      rw [List.length_append] at hc'
      omega
    have hL : (((la ++ lb).length : ℕ) : ℚ) = (la.length : ℚ) + (lb.length : ℚ) := by
      push_cast [List.length_append]
      ring
    refine ⟨?_, ?_, ?_, ?_, ?_⟩
    · rw [hmerge]
      show a.mean_x + _ = _
      rw [hamx, hbmx, han, hbn, hL, sumFst_append]
      field_simp
      try ring
    · rw [hmerge]
      show a.mean_y + _ = _
      rw [hamy, hbmy, han, hbn, hL, sumSnd_append]
      field_simp
      try ring
    · rw [hmerge]
      show a.m2_x + _ + _ = _
      rw [haqx, hbqx, hamx, hbmx, han, hbn, hL, sumFstSq_append, sumFst_append]
      field_simp
      try ring
    · rw [hmerge]
      show a.m2_y + _ + _ = _
      rw [haqy, hbqy, hamy, hbmy, han, hbn, hL, sumSndSq_append, sumSnd_append]
      field_simp
      try ring
    · rw [hmerge]
      show a.c + _ + _ = _
      rw [hac, hbc, hamx, hbmx, hamy, hbmy, han, hbn, hL, sumCross_append,
        sumFst_append, sumSnd_append]
      field_simp
      try ring

theorem CovRep_foldl {l : List (ℚ × ℚ)} {s : OnlineCovariance}
    (h : CovRep l s) :
    ∀ l' : List (ℚ × ℚ),
      CovRep (l ++ l') (l'.foldl (fun t p => t.observe p.1 p.2) s) := by
  intro l'
  induction l' generalizing l s with
  | nil => simpa using h
  | cons p t ih =>
      have hx := CovRep_observe h p.1 p.2
      have := ih hx
      simpa [List.append_assoc] using this

theorem CovRep_ofList (l : List (ℚ × ℚ)) : CovRep l (OnlineCovariance.ofList l) := by
  simpa using CovRep_foldl CovRep_empty l

theorem CovRep_unique {l l' : List (ℚ × ℚ)} {s s' : OnlineCovariance}
    (h : CovRep l s) (h' : CovRep l' s')
    (hlen : l.length = l'.length) (hsx : sumFst l = sumFst l')
    (hsy : sumSnd l = sumSnd l') (hsxx : sumFstSq l = sumFstSq l')
    (hsyy : sumSndSq l = sumSndSq l') (hsxy : sumCross l = sumCross l') :
    s = s' := by
  obtain ⟨hn, h0, hp⟩ := h
  obtain ⟨hn', h0', hp'⟩ := h'
  cases s with
  | mk n mx my qx qy c =>
    cases s' with
    | mk n' mx' my' qx' qy' c' =>
      rcases Nat.eq_zero_or_pos l.length with hz | hpos
      · obtain ⟨e1, e2, e3, e4, e5⟩ := h0 hz
        obtain ⟨f1, f2, f3, f4, f5⟩ := h0' (hlen ▸ hz)
        simp_all
      · obtain ⟨e1, e2, e3, e4, e5⟩ := hp hpos
        obtain ⟨f1, f2, f3, f4, f5⟩ := hp' (hlen ▸ hpos)
        simp_all

/-- The paired analogue of `RunningStats.merge_take_drop_single_pass`. -/
theorem OnlineCovariance.merge_take_drop_pairs (ps : List (ℚ × ℚ)) (k : ℕ) :
    (OnlineCovariance.ofList (ps.take k)).merge
        (OnlineCovariance.ofList (ps.drop k)) =
      OnlineCovariance.ofList ps := by
  have h := CovRep_merge (CovRep_ofList (ps.take k)) (CovRep_ofList (ps.drop k))
  rw [List.take_append_drop] at h
  exact CovRep_unique h (CovRep_ofList ps) rfl rfl rfl rfl rfl rfl

/-- The paired analogue of `RunningStats.merge_drop_take_single_pass`. -/
theorem OnlineCovariance.merge_drop_take_pairs (ps : List (ℚ × ℚ)) (k : ℕ) :
    (OnlineCovariance.ofList (ps.drop k)).merge
        (OnlineCovariance.ofList (ps.take k)) =
      OnlineCovariance.ofList ps := by
  have h := CovRep_merge (CovRep_ofList (ps.drop k)) (CovRep_ofList (ps.take k))
  have hsplit := List.take_append_drop k ps
  refine CovRep_unique h (CovRep_ofList ps) ?_ ?_ ?_ ?_ ?_ ?_
  · have := congrArg List.length hsplit
    simp only [List.length_append] at this ⊢
    omega
  · have := congrArg sumFst hsplit
    simp only [sumFst_append] at this ⊢
    linarith
  · have := congrArg sumSnd hsplit
    simp only [sumSnd_append] at this ⊢
    linarith
  · have := congrArg sumFstSq hsplit
    simp only [sumFstSq_append] at this ⊢
    linarith
  · have := congrArg sumSndSq hsplit
    simp only [sumSndSq_append] at this ⊢
    linarith
  · have := congrArg sumCross hsplit
    simp only [sumCross_append] at this ⊢
    linarith

/-- Merging in the opposite order (suffix accumulator absorbs the prefix
accumulator) also recovers the single-pass accumulator. -/
theorem RunningStats.merge_drop_take_single_pass (xs : List ℚ) (k : ℕ) :
    (RunningStats.ofList (xs.drop k)).merge (RunningStats.ofList (xs.take k)) =
      RunningStats.ofList xs := by
  have h := RSrep_merge (RSrep_ofList (xs.drop k)) (RSrep_ofList (xs.take k))
  refine RSrep_unique h (RSrep_ofList xs) ?_ ?_ ?_
  · have := congrArg List.length (List.take_append_drop k xs)
    simp only [List.length_append] at this ⊢
    omega
  · have := congrArg List.sum (List.take_append_drop k xs)
    simp only [List.sum_append] at this ⊢
    linarith
  · have := congrArg sumSq (List.take_append_drop k xs)
    simp only [sumSq_append] at this ⊢
    linarith

theorem sum_sq_dev (l : List ℚ) (a : ℚ) :
    (l.map fun x => (x - a) * (x - a)).sum =
      sumSq l - 2 * a * l.sum + (l.length : ℚ) * (a * a) := by
  induction l with
  | nil => simp [sumSq]
  | cons x t ih =>
      simp only [List.map_cons, List.sum_cons, List.length_cons, sumSq,
        List.sum_cons] at ih ⊢
      push_cast
      rw [ih]
      ring

theorem sum_cross_dev (ps : List (ℚ × ℚ)) (a b : ℚ) :
    (ps.map fun p => (p.1 - a) * (p.2 - b)).sum =
      sumCross ps - b * sumFst ps - a * sumSnd ps +
        (ps.length : ℚ) * (a * b) := by
  induction ps with
  | nil => simp [sumCross, sumFst, sumSnd]
  | cons p t ih =>
      simp only [List.map_cons, List.sum_cons, List.length_cons, sumCross,
        sumFst, sumSnd, List.sum_cons] at ih ⊢
      push_cast
      rw [ih]
      ring

theorem devSq_eq (l : List ℚ) (h : l ≠ []) :
    devSq l = sumSq l - l.sum * l.sum / (l.length : ℚ) := by
  have hlen : ((l.length : ℚ)) ≠ 0 := by
    have : 0 < l.length := List.length_pos.mpr h
    positivity
  rw [devSq, sum_sq_dev, listMean]
  field_simp
  ring

theorem crossDev_eq (ps : List (ℚ × ℚ)) (h : ps ≠ []) :
    crossDev ps = sumCross ps - sumFst ps * sumSnd ps / (ps.length : ℚ) := by
  have hlen : ((ps.length : ℚ)) ≠ 0 := by
    have : 0 < ps.length := List.length_pos.mpr h
    positivity
  rw [crossDev, sum_cross_dev, meanFst, meanSnd]
  field_simp
  ring

theorem devSqFst_eq (ps : List (ℚ × ℚ)) (h : ps ≠ []) :
    devSqFst ps = sumFstSq ps - sumFst ps * sumFst ps / (ps.length : ℚ) := by
  have hlen : ((ps.length : ℚ)) ≠ 0 := by
    have : 0 < ps.length := List.length_pos.mpr h
    positivity
  have hx : devSqFst ps =
      ((ps.map Prod.fst).map fun x => (x - meanFst ps) * (x - meanFst ps)).sum := by
    rw [devSqFst, List.map_map]
    rfl
  rw [hx, sum_sq_dev, meanFst]
  have h1 : sumSq (ps.map Prod.fst) = sumFstSq ps := by
    rw [sumSq, sumFstSq, List.map_map]
    rfl
  have h2 : (ps.map Prod.fst).sum = sumFst ps := rfl
  have h3 : ((ps.map Prod.fst).length : ℚ) = (ps.length : ℚ) := by
    rw [List.length_map]
  rw [h1, h2, h3]
  field_simp
  ring

theorem devSqSnd_eq (ps : List (ℚ × ℚ)) (h : ps ≠ []) :
    devSqSnd ps = sumSndSq ps - sumSnd ps * sumSnd ps / (ps.length : ℚ) := by
  have hlen : ((ps.length : ℚ)) ≠ 0 := by
    have : 0 < ps.length := List.length_pos.mpr h
    positivity
  have hx : devSqSnd ps =
      ((ps.map Prod.snd).map fun x => (x - meanSnd ps) * (x - meanSnd ps)).sum := by
    rw [devSqSnd, List.map_map]
    rfl
  rw [hx, sum_sq_dev, meanSnd]
  have h1 : sumSq (ps.map Prod.snd) = sumSndSq ps := by
    rw [sumSq, sumSndSq, List.map_map]
    rfl
  have h2 : (ps.map Prod.snd).sum = sumSnd ps := rfl
  have h3 : ((ps.map Prod.snd).length : ℚ) = (ps.length : ℚ) := by
    rw [List.length_map]
  rw [h1, h2, h3]
  field_simp
  ring

/-- C1: for every sequence of at least 2 scalars (resp. pairs) and every split
point, accumulating the prefix and suffix into two accumulators and merging
them, in either merge order, yields the same count, mean(s),
variance_population, variance_sample, covariance_population,
covariance_sample, and correlation as a single pass over the whole sequence
(exactly, in the exact-arithmetic model). -/
theorem claim_C1_merge_equals_single_pass
    (xs : List ℚ) (ps : List (ℚ × ℚ)) (k kp : ℕ)
    (hxs : 2 ≤ xs.length) (hps : 2 ≤ ps.length)
    (hk : k ≤ xs.length) (hkp : kp ≤ ps.length) :
    (((RunningStats.ofList (xs.take k)).merge
        (RunningStats.ofList (xs.drop k))).n = (RunningStats.ofList xs).n ∧
      ((RunningStats.ofList (xs.take k)).merge
        (RunningStats.ofList (xs.drop k))).mean = (RunningStats.ofList xs).mean ∧
      ((RunningStats.ofList (xs.take k)).merge
          (RunningStats.ofList (xs.drop k))).variance_population =
        (RunningStats.ofList xs).variance_population ∧
      ((RunningStats.ofList (xs.take k)).merge
          (RunningStats.ofList (xs.drop k))).variance_sample =
        (RunningStats.ofList xs).variance_sample) ∧
    (((RunningStats.ofList (xs.drop k)).merge
        (RunningStats.ofList (xs.take k))).n = (RunningStats.ofList xs).n ∧
      ((RunningStats.ofList (xs.drop k)).merge
        (RunningStats.ofList (xs.take k))).mean = (RunningStats.ofList xs).mean ∧
      ((RunningStats.ofList (xs.drop k)).merge
          (RunningStats.ofList (xs.take k))).variance_population =
        (RunningStats.ofList xs).variance_population ∧
      ((RunningStats.ofList (xs.drop k)).merge
          (RunningStats.ofList (xs.take k))).variance_sample =
        (RunningStats.ofList xs).variance_sample) ∧
    (((OnlineCovariance.ofList (ps.take kp)).merge
        (OnlineCovariance.ofList (ps.drop kp))).n =
          (OnlineCovariance.ofList ps).n ∧
      ((OnlineCovariance.ofList (ps.take kp)).merge
        (OnlineCovariance.ofList (ps.drop kp))).mean_x =
          (OnlineCovariance.ofList ps).mean_x ∧
      ((OnlineCovariance.ofList (ps.take kp)).merge
        (OnlineCovariance.ofList (ps.drop kp))).mean_y =
          (OnlineCovariance.ofList ps).mean_y ∧
      ((OnlineCovariance.ofList (ps.take kp)).merge
        (OnlineCovariance.ofList (ps.drop kp))).variance_x_population =
          (OnlineCovariance.ofList ps).variance_x_population ∧
      ((OnlineCovariance.ofList (ps.take kp)).merge
        (OnlineCovariance.ofList (ps.drop kp))).variance_y_population =
          (OnlineCovariance.ofList ps).variance_y_population ∧
      ((OnlineCovariance.ofList (ps.take kp)).merge
        (OnlineCovariance.ofList (ps.drop kp))).variance_x_sample =
          (OnlineCovariance.ofList ps).variance_x_sample ∧
      ((OnlineCovariance.ofList (ps.take kp)).merge
        (OnlineCovariance.ofList (ps.drop kp))).variance_y_sample =
          (OnlineCovariance.ofList ps).variance_y_sample ∧
      ((OnlineCovariance.ofList (ps.take kp)).merge
        (OnlineCovariance.ofList (ps.drop kp))).covariance_population =
          (OnlineCovariance.ofList ps).covariance_population ∧
      ((OnlineCovariance.ofList (ps.take kp)).merge
        (OnlineCovariance.ofList (ps.drop kp))).covariance_sample =
          (OnlineCovariance.ofList ps).covariance_sample ∧
      ((OnlineCovariance.ofList (ps.take kp)).merge
        (OnlineCovariance.ofList (ps.drop kp))).correlation =
          (OnlineCovariance.ofList ps).correlation) ∧
    (((OnlineCovariance.ofList (ps.drop kp)).merge
        (OnlineCovariance.ofList (ps.take kp))).n =
          (OnlineCovariance.ofList ps).n ∧
      ((OnlineCovariance.ofList (ps.drop kp)).merge
        (OnlineCovariance.ofList (ps.take kp))).mean_x =
          (OnlineCovariance.ofList ps).mean_x ∧
      ((OnlineCovariance.ofList (ps.drop kp)).merge
        (OnlineCovariance.ofList (ps.take kp))).mean_y =
          (OnlineCovariance.ofList ps).mean_y ∧
      ((OnlineCovariance.ofList (ps.drop kp)).merge
        (OnlineCovariance.ofList (ps.take kp))).variance_x_population =
          (OnlineCovariance.ofList ps).variance_x_population ∧
      ((OnlineCovariance.ofList (ps.drop kp)).merge
        (OnlineCovariance.ofList (ps.take kp))).variance_y_population =
          (OnlineCovariance.ofList ps).variance_y_population ∧
      ((OnlineCovariance.ofList (ps.drop kp)).merge
        (OnlineCovariance.ofList (ps.take kp))).variance_x_sample =
          (OnlineCovariance.ofList ps).variance_x_sample ∧
      ((OnlineCovariance.ofList (ps.drop kp)).merge
        (OnlineCovariance.ofList (ps.take kp))).variance_y_sample =
          (OnlineCovariance.ofList ps).variance_y_sample ∧
      ((OnlineCovariance.ofList (ps.drop kp)).merge
        (OnlineCovariance.ofList (ps.take kp))).covariance_population =
          (OnlineCovariance.ofList ps).covariance_population ∧
      ((OnlineCovariance.ofList (ps.drop kp)).merge
        (OnlineCovariance.ofList (ps.take kp))).covariance_sample =
          (OnlineCovariance.ofList ps).covariance_sample ∧
      ((OnlineCovariance.ofList (ps.drop kp)).merge
        (OnlineCovariance.ofList (ps.take kp))).correlation =
          (OnlineCovariance.ofList ps).correlation) := by
  rw [RunningStats.merge_take_drop_single_pass xs k, RunningStats.merge_drop_take_single_pass xs k,
    OnlineCovariance.merge_take_drop_pairs ps kp, OnlineCovariance.merge_drop_take_pairs ps kp]
  simp

/-- Witness for C1 at the concrete streams `[1,2,3]` and `[(1,2),(3,4)]`,
split point 1. -/
theorem claim_C1_merge_equals_single_pass_witness :
    2 ≤ ([1, 2, 3] : List ℚ).length ∧
    2 ≤ ([((1 : ℚ), (2 : ℚ)), (3, 4)] : List (ℚ × ℚ)).length ∧
    ((RunningStats.ofList (([1, 2, 3] : List ℚ).take 1)).merge
        (RunningStats.ofList (([1, 2, 3] : List ℚ).drop 1))).n =
      (RunningStats.ofList ([1, 2, 3] : List ℚ)).n :=
  ⟨by decide, by decide,
    (claim_C1_merge_equals_single_pass [1, 2, 3] [((1 : ℚ), (2 : ℚ)), (3, 4)]
      1 1 (by decide) (by decide) (by decide) (by decide)).1.1⟩

/-- C2: for every non-empty paired stream, the accumulated cross moment `c`
equals the two-pass quantity `Σ (x - mean_x) * (y - mean_y)` exactly, and the
per-stream second moments `m2x`, `m2y` equal the exact sums of squared
deviations from the final means. -/
theorem claim_C2_cross_moment_two_pass (ps : List (ℚ × ℚ)) (h : ps ≠ []) :
    (OnlineCovariance.ofList ps).c = crossDev ps ∧
    (OnlineCovariance.ofList ps).m2_x = devSqFst ps ∧
    (OnlineCovariance.ofList ps).m2_y = devSqSnd ps := by
  have hp : 0 < ps.length := List.length_pos.mpr h
  obtain ⟨hn, h0, hpos⟩ := CovRep_ofList ps
  obtain ⟨hmx, hmy, hqx, hqy, hc⟩ := hpos hp
  refine ⟨?_, ?_, ?_⟩
  · rw [hc, crossDev_eq ps h]
  · rw [hqx, devSqFst_eq ps h]
  · rw [hqy, devSqSnd_eq ps h]

/-- Witness for C2 at the concrete paired stream `[(1,2),(3,5)]`. -/
theorem claim_C2_cross_moment_two_pass_witness :
    ([((1 : ℚ), (2 : ℚ)), (3, 5)] : List (ℚ × ℚ)) ≠ [] ∧
    (OnlineCovariance.ofList [((1 : ℚ), (2 : ℚ)), (3, 5)]).c =
      crossDev [((1 : ℚ), (2 : ℚ)), (3, 5)] :=
  ⟨by decide, (claim_C2_cross_moment_two_pass _ (by decide)).1⟩

/-- C3: `reset` puts count, mean and m2 at `0`; an empty history has mean and
m2 at the reset value `0`; and for a non-empty history the accumulated mean is
the exact mean, m2 is the exact sum of squared deviations, and
`variance_population` is the exact population variance. -/
theorem claim_C3_welford_univariate_exact (xs : List ℚ) (t : RunningStats) :
    (RunningStats.ofList xs).n = xs.length ∧
    ((t.reset).n = 0 ∧ (t.reset).mean = 0 ∧ (t.reset).m2 = 0) ∧
    (xs = [] →
      (RunningStats.ofList xs).mean = 0 ∧ (RunningStats.ofList xs).m2 = 0) ∧
    (xs ≠ [] →
      (RunningStats.ofList xs).mean = listMean xs ∧
      (RunningStats.ofList xs).m2 = devSq xs ∧
      (RunningStats.ofList xs).variance_population =
        some (devSq xs / (xs.length : ℚ))) := by
  obtain ⟨hn, h0, hpos⟩ := RSrep_ofList xs
  refine ⟨hn, ⟨rfl, rfl, rfl⟩, fun he => ?_, fun hne => ?_⟩
  · exact h0 (by simp [he])
  · have hp : 0 < xs.length := List.length_pos.mpr hne
    obtain ⟨hm, hq⟩ := hpos hp
    have hq' : (RunningStats.ofList xs).m2 = devSq xs := by
      rw [hq, devSq_eq xs hne]
    refine ⟨by rw [hm, listMean], hq', ?_⟩
    rw [RunningStats.variance_population, hq', hn]
    simp [Nat.lt_one_iff, Nat.pos_iff_ne_zero.mp hp]

/-- Witness for C3 at the concrete stream `[1,2,3,4,5]`. -/
theorem claim_C3_welford_univariate_exact_witness :
    ([1, 2, 3, 4, 5] : List ℚ) ≠ [] ∧
    (RunningStats.ofList ([1, 2, 3, 4, 5] : List ℚ)).mean =
      listMean [1, 2, 3, 4, 5] :=
  ⟨by decide,
    ((claim_C3_welford_univariate_exact [1, 2, 3, 4, 5]
      RunningStats.empty).2.2.2 (by decide)).1⟩

/-! ## Readiness and NaN-policy characterizations -/

theorem OnlineCovariance.variance_x_population_of_pos {s : OnlineCovariance}
    (h : 1 ≤ s.n) : s.variance_x_population = some (s.m2_x / (s.n : ℚ)) := by
  rw [OnlineCovariance.variance_x_population, if_neg (by omega)]

theorem OnlineCovariance.variance_y_population_of_pos {s : OnlineCovariance}
    (h : 1 ≤ s.n) : s.variance_y_population = some (s.m2_y / (s.n : ℚ)) := by
  rw [OnlineCovariance.variance_y_population, if_neg (by omega)]

theorem OnlineCovariance.covariance_population_of_pos {s : OnlineCovariance}
    (h : 1 ≤ s.n) : s.covariance_population = some (s.c / (s.n : ℚ)) := by
  rw [OnlineCovariance.covariance_population, if_neg (by omega)]

theorem OnlineCovariance.ready_iff_moments (s : OnlineCovariance) :
    s.ready = true ↔
      2 ≤ s.n ∧
      fastnumEps * fastnumEps < s.m2_x / (s.n : ℚ) ∧
      fastnumEps * fastnumEps < s.m2_y / (s.n : ℚ) := by
  rw [OnlineCovariance.ready]
  by_cases h2 : s.n < 2
  · simp only [if_pos h2, Bool.false_eq_true, false_iff]
    rintro ⟨hn, -, -⟩
    omega
  · rw [if_neg h2,
      OnlineCovariance.variance_x_population_of_pos (by omega),
      OnlineCovariance.variance_y_population_of_pos (by omega)]
    by_cases hc : s.m2_x / (s.n : ℚ) ≤ fastnumEps * fastnumEps ∨
        s.m2_y / (s.n : ℚ) ≤ fastnumEps * fastnumEps
    · simp only [if_pos hc, Bool.false_eq_true, false_iff]
      rintro ⟨-, hx, hy⟩
      rcases hc with h | h
      · exact absurd hx (not_lt.mpr h)
      · exact absurd hy (not_lt.mpr h)
    · simp only [if_neg hc, true_iff]
      push_neg at hc
      exact ⟨by omega, hc.1, hc.2⟩

theorem OnlineCovariance.correlation_of_not_ready {s : OnlineCovariance}
    (h : s.ready = false) : s.correlation = none := by
  rw [OnlineCovariance.correlation, if_pos h]

theorem OnlineCovariance.correlation_of_ready_low {s : OnlineCovariance}
    (h : s.ready = true)
    (hle : Real.sqrt (((s.m2_x / (s.n : ℚ) : ℚ) : ℝ) *
        ((s.m2_y / (s.n : ℚ) : ℚ) : ℝ)) ≤ ((fastnumEps : ℚ) : ℝ)) :
    s.correlation = none := by
  have h1 : 1 ≤ s.n := by
    have := (OnlineCovariance.ready_iff_moments s).mp h
    omega
  rw [OnlineCovariance.correlation, if_neg (by simp [h]),
    OnlineCovariance.variance_x_population_of_pos h1,
    OnlineCovariance.variance_y_population_of_pos h1]
  simp only [Option.getD_some]
  rw [if_pos hle]

theorem OnlineCovariance.correlation_of_ready_high {s : OnlineCovariance}
    (h : s.ready = true)
    (hlt : ((fastnumEps : ℚ) : ℝ) < Real.sqrt (((s.m2_x / (s.n : ℚ) : ℚ) : ℝ) *
        ((s.m2_y / (s.n : ℚ) : ℚ) : ℝ))) :
    s.correlation =
      some (((s.c / (s.n : ℚ) : ℚ) : ℝ) /
        Real.sqrt (((s.m2_x / (s.n : ℚ) : ℚ) : ℝ) *
          ((s.m2_y / (s.n : ℚ) : ℚ) : ℝ))) := by
  have h1 : 1 ≤ s.n := by
    have := (OnlineCovariance.ready_iff_moments s).mp h
    omega
  rw [OnlineCovariance.correlation, if_neg (by simp [h]),
    OnlineCovariance.variance_x_population_of_pos h1,
    OnlineCovariance.variance_y_population_of_pos h1,
    OnlineCovariance.covariance_population_of_pos h1]
  simp only [Option.getD_some]
  rw [if_neg (not_le.mpr hlt)]

/-- C4: `correlation()` is NaN whenever `ready()` is false; otherwise it is
`covariance_population / sqrt(vx * vy)` guarded to NaN when that denominator
is `≤ eps`; and `ready()` holds iff `count ≥ 2` and both population variances
(defined, i.e. non-NaN, values since `count ≥ 2`) strictly exceed `eps²`. -/
theorem claim_C4_correlation_ready_policy (s : OnlineCovariance) :
    (s.ready = true ↔
      2 ≤ s.n ∧
      fastnumEps * fastnumEps < s.m2_x / (s.n : ℚ) ∧
      fastnumEps * fastnumEps < s.m2_y / (s.n : ℚ)) ∧
    (s.ready = false → s.correlation = none) ∧
    (s.ready = true →
      (Real.sqrt (((s.m2_x / (s.n : ℚ) : ℚ) : ℝ) *
          ((s.m2_y / (s.n : ℚ) : ℚ) : ℝ)) ≤ ((fastnumEps : ℚ) : ℝ) →
        s.correlation = none) ∧
      (((fastnumEps : ℚ) : ℝ) < Real.sqrt (((s.m2_x / (s.n : ℚ) : ℚ) : ℝ) *
          ((s.m2_y / (s.n : ℚ) : ℚ) : ℝ)) →
        s.correlation =
          some (((s.c / (s.n : ℚ) : ℚ) : ℝ) /
            Real.sqrt (((s.m2_x / (s.n : ℚ) : ℚ) : ℝ) *
              ((s.m2_y / (s.n : ℚ) : ℚ) : ℝ))))) :=
  ⟨OnlineCovariance.ready_iff_moments s,
    fun h => OnlineCovariance.correlation_of_not_ready h,
    fun h => ⟨fun hle => OnlineCovariance.correlation_of_ready_low h hle,
      fun hlt => OnlineCovariance.correlation_of_ready_high h hlt⟩⟩

/-- Witness for C4 at the ready state `⟨2, 1/2, 1/2, 1/2, 1/2, 1/2⟩`
(accumulated from the pairs `(0,0)`, `(1,1)`). -/
theorem claim_C4_correlation_ready_policy_witness :
    (OnlineCovariance.mk 2 (1/2) (1/2) (1/2) (1/2) (1/2)).ready = true ∧
    (OnlineCovariance.mk 2 (1/2) (1/2) (1/2) (1/2) (1/2)).correlation =
      some ((((OnlineCovariance.mk 2 (1/2) (1/2) (1/2) (1/2) (1/2)).c /
            ((OnlineCovariance.mk 2 (1/2) (1/2) (1/2) (1/2) (1/2)).n : ℚ) : ℚ) : ℝ) /
        Real.sqrt ((((OnlineCovariance.mk 2 (1/2) (1/2) (1/2) (1/2) (1/2)).m2_x /
              ((OnlineCovariance.mk 2 (1/2) (1/2) (1/2) (1/2) (1/2)).n : ℚ) : ℚ) : ℝ) *
          (((OnlineCovariance.mk 2 (1/2) (1/2) (1/2) (1/2) (1/2)).m2_y /
              ((OnlineCovariance.mk 2 (1/2) (1/2) (1/2) (1/2) (1/2)).n : ℚ) : ℚ) : ℝ))) := by
  have hready : (OnlineCovariance.mk 2 (1/2) (1/2) (1/2) (1/2) (1/2)).ready = true := by
    rw [OnlineCovariance.ready_iff_moments]
    refine ⟨by norm_num, ?_, ?_⟩ <;> norm_num [fastnumEps]
  have hx : ((((OnlineCovariance.mk 2 (1/2) (1/2) (1/2) (1/2) (1/2)).m2_x /
      ((OnlineCovariance.mk 2 (1/2) (1/2) (1/2) (1/2) (1/2)).n : ℚ) : ℚ)) : ℝ) = 1/4 := by
    norm_num
  have hs : Real.sqrt ((((OnlineCovariance.mk 2 (1/2) (1/2) (1/2) (1/2) (1/2)).m2_x /
        ((OnlineCovariance.mk 2 (1/2) (1/2) (1/2) (1/2) (1/2)).n : ℚ) : ℚ) : ℝ) *
      (((OnlineCovariance.mk 2 (1/2) (1/2) (1/2) (1/2) (1/2)).m2_y /
        ((OnlineCovariance.mk 2 (1/2) (1/2) (1/2) (1/2) (1/2)).n : ℚ) : ℚ) : ℝ)) = 1/4 := by
    rw [hx, show ((1:ℝ)/4) * ((1:ℝ)/4) = ((1:ℝ)/4)^2 by norm_num,
      Real.sqrt_sq (by norm_num)]
  have hlt : ((fastnumEps : ℚ) : ℝ) <
      Real.sqrt ((((OnlineCovariance.mk 2 (1/2) (1/2) (1/2) (1/2) (1/2)).m2_x /
          ((OnlineCovariance.mk 2 (1/2) (1/2) (1/2) (1/2) (1/2)).n : ℚ) : ℚ) : ℝ) *
        (((OnlineCovariance.mk 2 (1/2) (1/2) (1/2) (1/2) (1/2)).m2_y /
          ((OnlineCovariance.mk 2 (1/2) (1/2) (1/2) (1/2) (1/2)).n : ℚ) : ℚ) : ℝ)) := by
    rw [hs]
    norm_num [fastnumEps]
  exact ⟨hready,
    ((claim_C4_correlation_ready_policy _).2.2 hready).2 hlt⟩

/-- C5: the four count-gated accessors return NaN exactly on insufficient
counts and otherwise the stored moment divided by `n` (resp. `n - 1`); NaN
from the accessor (never an exception, all functions being total) is the only
failure signal. -/
theorem claim_C5_accessor_nan_gating (s : RunningStats) (t : OnlineCovariance) :
    (s.variance_population = none ↔ s.n = 0) ∧
    (1 ≤ s.n → s.variance_population = some (s.m2 / (s.n : ℚ))) ∧
    (s.variance_sample = none ↔ s.n < 2) ∧
    (2 ≤ s.n → s.variance_sample = some (s.m2 / ((s.n : ℚ) - 1))) ∧
    (t.covariance_population = none ↔ t.n = 0) ∧
    (1 ≤ t.n → t.covariance_population = some (t.c / (t.n : ℚ))) ∧
    (t.covariance_sample = none ↔ t.n < 2) ∧
    (2 ≤ t.n → t.covariance_sample = some (t.c / ((t.n : ℚ) - 1))) := by
  refine ⟨?_, ?_, ?_, ?_, ?_, ?_, ?_, ?_⟩
  · rw [RunningStats.variance_population]
    split_ifs with h <;> simp <;> omega
  · intro h
    rw [RunningStats.variance_population, if_neg (by omega)]
  · rw [RunningStats.variance_sample]
    split_ifs with h <;> simp <;> omega
  · intro h
    rw [RunningStats.variance_sample, if_neg (by omega)]
    have : ((s.n - 1 : ℕ) : ℚ) = (s.n : ℚ) - 1 := by
      push_cast [Nat.cast_sub (by omega : 1 ≤ s.n)]
      ring
    rw [this]
  · rw [OnlineCovariance.covariance_population]
    split_ifs with h <;> simp <;> omega
  · intro h
    rw [OnlineCovariance.covariance_population, if_neg (by omega)]
  · rw [OnlineCovariance.covariance_sample]
    split_ifs with h <;> simp <;> omega
  · intro h
    rw [OnlineCovariance.covariance_sample, if_neg (by omega)]
    have : ((t.n - 1 : ℕ) : ℚ) = (t.n : ℚ) - 1 := by
      push_cast [Nat.cast_sub (by omega : 1 ≤ t.n)]
      ring
    rw [this]

/-- Witness for C5 at the states `⟨2, 3, 8⟩` and `⟨2, 0, 0, 0, 0, 6⟩`. -/
theorem claim_C5_accessor_nan_gating_witness :
    2 ≤ (RunningStats.mk 2 3 8).n ∧
    (RunningStats.mk 2 3 8).variance_sample =
      some ((RunningStats.mk 2 3 8).m2 / (((RunningStats.mk 2 3 8).n : ℚ) - 1)) ∧
    2 ≤ (OnlineCovariance.mk 2 0 0 0 0 6).n ∧
    (OnlineCovariance.mk 2 0 0 0 0 6).covariance_sample =
      some ((OnlineCovariance.mk 2 0 0 0 0 6).c /
        (((OnlineCovariance.mk 2 0 0 0 0 6).n : ℚ) - 1)) :=
  ⟨by decide,
    (claim_C5_accessor_nan_gating (RunningStats.mk 2 3 8)
      (OnlineCovariance.mk 2 0 0 0 0 6)).2.2.2.1 (by decide),
    by decide,
    (claim_C5_accessor_nan_gating (RunningStats.mk 2 3 8)
      (OnlineCovariance.mk 2 0 0 0 0 6)).2.2.2.2.2.2.2 (by decide)⟩

/-! ## Scaler readiness, transform and batch plumbing -/

theorem RunningStats.variance_population_of_pos {s : RunningStats}
    (h : 1 ≤ s.n) : s.variance_population = some (s.m2 / (s.n : ℚ)) := by
  rw [RunningStats.variance_population, if_neg (by omega)]

theorem OnlineStandardScaler.ready_iff_variance (s : OnlineStandardScaler) :
    s.ready = true ↔
      2 ≤ s.stats.n ∧
      fastnumEps * fastnumEps < s.stats.m2 / (s.stats.n : ℚ) := by
  rw [OnlineStandardScaler.ready]
  by_cases h2 : s.stats.n < 2
  · simp only [if_pos h2, Bool.false_eq_true, false_iff]
    rintro ⟨hn, -⟩
    omega
  · rw [if_neg h2, RunningStats.variance_population_of_pos (by omega)]
    by_cases hc : s.stats.m2 / (s.stats.n : ℚ) ≤ fastnumEps * fastnumEps
    · simp only [if_pos hc, Bool.false_eq_true, false_iff]
      rintro ⟨-, hv⟩
      exact absurd hv (not_lt.mpr hc)
    · simp only [if_neg hc, true_iff]
      exact ⟨by omega, lt_of_not_le hc⟩

theorem OnlineStandardScaler.transform_of_not_ready {s : OnlineStandardScaler}
    (h : s.ready = false) (x : ℚ) : s.transform x = none := by
  rw [OnlineStandardScaler.transform, if_pos h]

theorem OnlineStandardScaler.transform_of_ready {s : OnlineStandardScaler}
    (h : s.ready = true) (x : ℚ) :
    s.transform x = some (((x : ℝ) - (s.stats.mean : ℝ)) *
      (1 / Real.sqrt ((s.stats.m2 / (s.stats.n : ℚ) : ℚ) : ℝ))) := by
  have h1 : 1 ≤ s.stats.n := by
    have := (OnlineStandardScaler.ready_iff_variance s).mp h
    omega
  rw [OnlineStandardScaler.transform, if_neg (by simp [h]),
    RunningStats.variance_population_of_pos h1]
  simp only [Option.getD_some]

theorem OnlineStandardScaler.transform_inplace_eq_map (s : OnlineStandardScaler)
    (xs : List ℚ) : s.transform_inplace xs = xs.map s.transform := by
  rw [OnlineStandardScaler.transform_inplace]
  by_cases hl : xs.length = 0
  · obtain rfl : xs = [] := List.length_eq_zero.mp hl
    simp
  · rw [if_neg hl]
    by_cases hr : s.ready = false
    · rw [if_pos hr]
      refine List.map_congr_left ?_
      intro a _
      rw [OnlineStandardScaler.transform_of_not_ready hr]
    · have hr' : s.ready = true := by
        revert hr
        cases s.ready <;> simp
      rw [if_neg (by simp [hr'])]
      refine List.map_congr_left ?_
      intro a _
      have h1 : 1 ≤ s.stats.n := by
        have := (OnlineStandardScaler.ready_iff_variance s).mp hr'
        omega
      rw [OnlineStandardScaler.transform, if_neg (by simp [hr'])]

/-- C7: `transform(x)` is NaN when the scaler is not ready and otherwise
`(x - mean) * (1 / sqrt(variance_population))`; `transform_inplace` is the
element-wise `transform` over the buffer (length preserved), and on a
not-ready scaler every element of the buffer is overwritten with NaN. -/
theorem claim_C7_transform_policy (s : OnlineStandardScaler) (x : ℚ)
    (xs : List ℚ) :
    (s.ready = false → s.transform x = none) ∧
    (s.ready = true →
      s.transform x = some (((x : ℝ) - (s.stats.mean : ℝ)) *
        (1 / Real.sqrt ((s.stats.m2 / (s.stats.n : ℚ) : ℚ) : ℝ)))) ∧
    s.transform_inplace xs = xs.map s.transform ∧
    (s.transform_inplace xs).length = xs.length ∧
    (s.ready = false → ∀ e ∈ s.transform_inplace xs, e = none) := by
  refine ⟨fun h => OnlineStandardScaler.transform_of_not_ready h x,
    fun h => OnlineStandardScaler.transform_of_ready h x,
    OnlineStandardScaler.transform_inplace_eq_map s xs, ?_, fun h e he => ?_⟩
  · rw [OnlineStandardScaler.transform_inplace_eq_map, List.length_map]
  · rw [OnlineStandardScaler.transform_inplace_eq_map] at he
    obtain ⟨a, -, rfl⟩ := List.mem_map.mp he
    exact OnlineStandardScaler.transform_of_not_ready h a

/-- Witness for C7 at the ready scaler `⟨⟨2, 1/2, 1/2⟩⟩` (fitted on `0, 1`)
and input `5`. -/
theorem claim_C7_transform_policy_witness :
    (OnlineStandardScaler.mk (RunningStats.mk 2 (1/2) (1/2))).ready = true ∧
    (OnlineStandardScaler.mk (RunningStats.mk 2 (1/2) (1/2))).transform 5 =
      some ((((5 : ℚ) : ℝ) - ((RunningStats.mk 2 (1/2) (1/2)).mean : ℝ)) *
        (1 / Real.sqrt (((RunningStats.mk 2 (1/2) (1/2)).m2 /
          ((RunningStats.mk 2 (1/2) (1/2)).n : ℚ) : ℚ) : ℝ))) := by
  have hready : (OnlineStandardScaler.mk (RunningStats.mk 2 (1/2) (1/2))).ready = true := by
    rw [OnlineStandardScaler.ready_iff_variance]
    refine ⟨by norm_num, ?_⟩
    norm_num [fastnumEps]
  exact ⟨hready,
    (claim_C7_transform_policy _ 5 []).2.1 hready⟩

theorem OnlineStandardScaler.foldl_observe (xs : List ℚ)
    (s : OnlineStandardScaler) :
    OnlineStandardScaler.mk (xs.foldl RunningStats.push s.stats) =
      xs.foldl OnlineStandardScaler.observe s := by
  induction xs generalizing s with
  | nil => rfl
  | cons a t ih =>
      simp only [List.foldl_cons]
      exact ih ⟨s.stats.push a⟩

/-- C8: a batch observe with a null pointer or zero length leaves the
accumulator unchanged, and otherwise equals the scalar observe applied once
per element in order, for both the scaler and the paired accumulator. -/
theorem claim_C8_batch_observe_noop_and_equivalence
    (sc : OnlineStandardScaler) (cv : OnlineCovariance) (xs ys : List ℚ) :
    sc.observeBatch none = sc ∧
    sc.observeBatch (some []) = sc ∧
    sc.observeBatch (some xs) = xs.foldl OnlineStandardScaler.observe sc ∧
    cv.observeBatch none (some ys) = cv ∧
    cv.observeBatch (some xs) none = cv ∧
    cv.observeBatch (some []) (some ys) = cv ∧
    cv.observeBatch (some xs) (some ys) =
      (xs.zip ys).foldl (fun t p => t.observe p.1 p.2) cv := by
  refine ⟨rfl, rfl, ?_, rfl, ?_, rfl, ?_⟩
  · cases xs with
    | nil => rfl
    | cons a t =>
        rw [OnlineStandardScaler.observeBatch,
          if_neg (by simp)]
        exact OnlineStandardScaler.foldl_observe (a :: t) sc
  · cases xs <;> rfl
  · cases xs with
    | nil => rfl
    | cons a t =>
        rw [OnlineCovariance.observeBatch, if_neg (by simp)]

theorem RunningStats.push_m2_increment (s : RunningStats) (x : ℚ) :
    (s.push x).m2 = s.m2 + (x - s.mean) * (x - s.mean) *
      ((s.n : ℚ) / ((s.n : ℚ) + 1)) := by
  rw [RunningStats.push_m2]
  have hz : ((s.n : ℚ) + 1) ≠ 0 := by positivity
  push_cast
  field_simp
  ring

theorem RunningStats.push_m2_nonneg {s : RunningStats} (h : 0 ≤ s.m2) (x : ℚ) :
    0 ≤ (s.push x).m2 := by
  rw [RunningStats.push_m2_increment]
  have h1 : 0 ≤ (x - s.mean) * (x - s.mean) := mul_self_nonneg _
  have h2 : (0:ℚ) ≤ (s.n : ℚ) / ((s.n : ℚ) + 1) := by positivity
  positivity

theorem RunningStats.merge_m2_nonneg {a b : RunningStats}
    (ha : 0 ≤ a.m2) (hb : 0 ≤ b.m2) : 0 ≤ (a.merge b).m2 := by
  rw [RunningStats.merge]
  split_ifs with h1 h2
  · exact ha
  · exact hb
  · have h3 : (0:ℚ) ≤ (b.mean - a.mean) * (b.mean - a.mean) := mul_self_nonneg _
    have h4 : (0:ℚ) ≤ (a.n : ℚ) * (b.n : ℚ) / ((a.n : ℚ) + (b.n : ℚ)) := by
      have hna : (0:ℚ) < (a.n : ℚ) := by
        have : 0 < a.n := Nat.pos_of_ne_zero h2
        exact_mod_cast this
      have hnb : (0:ℚ) < (b.n : ℚ) := by
        have : 0 < b.n := Nat.pos_of_ne_zero h1
        exact_mod_cast this
      positivity
    have := mul_nonneg h3 h4
    show 0 ≤ a.m2 + b.m2 + (b.mean - a.mean) * (b.mean - a.mean) *
      ((a.n : ℚ) * (b.n : ℚ) / ((a.n : ℚ) + (b.n : ℚ)))
    linarith

theorem rs_reachable_m2_nonneg {s : RunningStats} (h : RSReachable s) :
    0 ≤ s.m2 := by
  induction h with
  | empty => exact le_refl 0
  | push s x _ ih => exact RunningStats.push_m2_nonneg ih x
  | merge a b _ _ iha ihb => exact RunningStats.merge_m2_nonneg iha ihb
  | reset s t _ => exact le_refl 0

/-- C9: in every reachable `RunningStats` state the invariant `m2 ≥ 0` holds
(push adds a non-negative term, merge adds non-negative terms, reset restores
`0`), hence `variance_population` and `variance_sample` are non-negative
whenever they are defined. -/
theorem claim_C9_m2_nonneg_invariant (s : RunningStats) (h : RSReachable s) :
    0 ≤ s.m2 ∧
    (∀ v, s.variance_population = some v → 0 ≤ v) ∧
    (∀ v, s.variance_sample = some v → 0 ≤ v) := by
  have hm2 := rs_reachable_m2_nonneg h
  refine ⟨hm2, fun v hv => ?_, fun v hv => ?_⟩
  · rw [RunningStats.variance_population] at hv
    split_ifs at hv with h1
    obtain rfl : s.m2 / (s.n : ℚ) = v := Option.some_inj.mp hv
    positivity
  · rw [RunningStats.variance_sample] at hv
    split_ifs at hv with h1
    obtain rfl : s.m2 / ((s.n - 1 : ℕ) : ℚ) = v := Option.some_inj.mp hv
    positivity

/-- Witness for C9 at the reachable state obtained by pushing `1` then `2`. -/
theorem claim_C9_m2_nonneg_invariant_witness :
    RSReachable ((RunningStats.empty.push 1).push 2) ∧
    0 ≤ ((RunningStats.empty.push 1).push 2).m2 :=
  ⟨RSReachable.push _ 2 (RSReachable.push _ 1 RSReachable.empty),
    (claim_C9_m2_nonneg_invariant _
      (RSReachable.push _ 2 (RSReachable.push _ 1 RSReachable.empty))).1⟩

/-- Determinant-style sum rule for 2x2 positive-semidefinite data: if
`c1² ≤ A1·B1` and `c2² ≤ A2·B2` with non-negative `A`s and `B`s, the same
holds for the componentwise sums. -/
theorem psd_add {A1 B1 c1 A2 B2 c2 : ℚ} (hA1 : 0 ≤ A1) (hB1 : 0 ≤ B1)
    (hA2 : 0 ≤ A2) (hB2 : 0 ≤ B2) (h1 : c1 ^ 2 ≤ A1 * B1)
    (h2 : c2 ^ 2 ≤ A2 * B2) :
    (c1 + c2) ^ 2 ≤ (A1 + A2) * (B1 + B2) := by
  have h3 : (c1 * c2) ^ 2 ≤ (A1 * B1) * (A2 * B2) := by
    calc (c1 * c2) ^ 2 = c1 ^ 2 * c2 ^ 2 := by ring
    _ ≤ (A1 * B1) * (A2 * B2) :=
        mul_le_mul h1 h2 (sq_nonneg c2) (mul_nonneg hA1 hB1)
  have hS : 0 ≤ A1 * B2 + A2 * B1 := by positivity
  have key : 2 * (c1 * c2) ≤ A1 * B2 + A2 * B1 := by
    rcases le_or_lt (c1 * c2) 0 with hc | hc
    · linarith
    · nlinarith [sq_nonneg (A1 * B2 - A2 * B1)]
  nlinarith [key, h1, h2]

theorem OnlineCovariance.observe_m2_x_increment (s : OnlineCovariance)
    (x y : ℚ) :
    (s.observe x y).m2_x = s.m2_x +
      (x - s.mean_x) ^ 2 * ((s.n : ℚ) / ((s.n : ℚ) + 1)) := by
  rw [OnlineCovariance.observe_m2_x]
  have hz : ((s.n : ℚ) + 1) ≠ 0 := by positivity
  push_cast
  field_simp
  ring

theorem OnlineCovariance.observe_m2_y_increment (s : OnlineCovariance)
    (x y : ℚ) :
    (s.observe x y).m2_y = s.m2_y +
      (y - s.mean_y) ^ 2 * ((s.n : ℚ) / ((s.n : ℚ) + 1)) := by
  rw [OnlineCovariance.observe_m2_y]
  have hz : ((s.n : ℚ) + 1) ≠ 0 := by positivity
  push_cast
  field_simp
  ring

theorem OnlineCovariance.observe_c_increment (s : OnlineCovariance)
    (x y : ℚ) :
    (s.observe x y).c = s.c +
      ((x - s.mean_x) * (y - s.mean_y)) * ((s.n : ℚ) / ((s.n : ℚ) + 1)) := by
  rw [OnlineCovariance.observe_c]
  have hz : ((s.n : ℚ) + 1) ≠ 0 := by positivity
  push_cast
  field_simp
  ring

theorem OnlineCovariance.merge_eq {a b : OnlineCovariance}
    (ha : a.n ≠ 0) (hb : b.n ≠ 0) :
    a.merge b =
      ⟨a.n + b.n,
        a.mean_x + (b.mean_x - a.mean_x) * ((b.n : ℚ) / ((a.n : ℚ) + (b.n : ℚ))),
        a.mean_y + (b.mean_y - a.mean_y) * ((b.n : ℚ) / ((a.n : ℚ) + (b.n : ℚ))),
        a.m2_x + b.m2_x + (b.mean_x - a.mean_x) * (b.mean_x - a.mean_x) *
          ((a.n : ℚ) * (b.n : ℚ) / ((a.n : ℚ) + (b.n : ℚ))),
        a.m2_y + b.m2_y + (b.mean_y - a.mean_y) * (b.mean_y - a.mean_y) *
          ((a.n : ℚ) * (b.n : ℚ) / ((a.n : ℚ) + (b.n : ℚ))),
        a.c + b.c + (b.mean_x - a.mean_x) * (b.mean_y - a.mean_y) *
          ((a.n : ℚ) * (b.n : ℚ) / ((a.n : ℚ) + (b.n : ℚ)))⟩ := by
  rw [OnlineCovariance.merge]
  simp [ha, hb]

theorem cov_reachable_psd {s : OnlineCovariance} (h : CovReachable s) :
    0 ≤ s.m2_x ∧ 0 ≤ s.m2_y ∧ s.c ^ 2 ≤ s.m2_x * s.m2_y := by
  induction h with
  | empty => exact ⟨le_refl 0, le_refl 0, by norm_num [OnlineCovariance.empty]⟩
  | observe s x y _ ih =>
      obtain ⟨ihx, ihy, ihc⟩ := ih
      have ht : (0:ℚ) ≤ (s.n : ℚ) / ((s.n : ℚ) + 1) := by positivity
      rw [OnlineCovariance.observe_m2_x_increment,
        OnlineCovariance.observe_m2_y_increment,
        OnlineCovariance.observe_c_increment]
      refine ⟨by positivity, by positivity, ?_⟩
      exact psd_add ihx ihy (by positivity) (by positivity) ihc
        (le_of_eq (by ring))
  | merge a b _ _ iha ihb =>
      obtain ⟨hax, hay, hac⟩ := iha
      obtain ⟨hbx, hby, hbc⟩ := ihb
      rcases Nat.eq_zero_or_pos b.n with hb0 | hbpos
      · have : a.merge b = a := by
          rw [OnlineCovariance.merge]
          simp [hb0]
        rw [this]
        exact ⟨hax, hay, hac⟩
      rcases Nat.eq_zero_or_pos a.n with ha0 | hapos
      · have : a.merge b = b := by
          rw [OnlineCovariance.merge]
          simp [ha0, Nat.pos_iff_ne_zero.mp hbpos]
        rw [this]
        exact ⟨hbx, hby, hbc⟩
      · rw [OnlineCovariance.merge_eq (by omega) (by omega)]
        have hw : (0:ℚ) ≤ (a.n : ℚ) * (b.n : ℚ) / ((a.n : ℚ) + (b.n : ℚ)) := by
          positivity
        refine ⟨?_, ?_, ?_⟩
        · have := mul_nonneg (mul_self_nonneg (b.mean_x - a.mean_x)) hw
          show (0:ℚ) ≤ a.m2_x + b.m2_x + _
          linarith
        · have := mul_nonneg (mul_self_nonneg (b.mean_y - a.mean_y)) hw
          show (0:ℚ) ≤ a.m2_y + b.m2_y + _
          linarith
        · have hsum : (a.c + b.c) ^ 2 ≤ (a.m2_x + b.m2_x) * (a.m2_y + b.m2_y) :=
            psd_add hax hay hbx hby hac hbc
          show (a.c + b.c + (b.mean_x - a.mean_x) * (b.mean_y - a.mean_y) *
              ((a.n : ℚ) * (b.n : ℚ) / ((a.n : ℚ) + (b.n : ℚ)))) ^ 2 ≤ _
          have hstep : ((a.c + b.c) + (b.mean_x - a.mean_x) * (b.mean_y - a.mean_y) *
              ((a.n : ℚ) * (b.n : ℚ) / ((a.n : ℚ) + (b.n : ℚ)))) ^ 2 ≤
              ((a.m2_x + b.m2_x) + (b.mean_x - a.mean_x) * (b.mean_x - a.mean_x) *
                ((a.n : ℚ) * (b.n : ℚ) / ((a.n : ℚ) + (b.n : ℚ)))) *
              ((a.m2_y + b.m2_y) + (b.mean_y - a.mean_y) * (b.mean_y - a.mean_y) *
                ((a.n : ℚ) * (b.n : ℚ) / ((a.n : ℚ) + (b.n : ℚ)))) := by
            refine psd_add (by linarith) (by linarith) ?_ ?_ hsum (le_of_eq (by ring))
            · exact mul_nonneg (mul_self_nonneg _) hw
            · exact mul_nonneg (mul_self_nonneg _) hw
          calc (a.c + b.c + (b.mean_x - a.mean_x) * (b.mean_y - a.mean_y) *
              ((a.n : ℚ) * (b.n : ℚ) / ((a.n : ℚ) + (b.n : ℚ)))) ^ 2
              = ((a.c + b.c) + (b.mean_x - a.mean_x) * (b.mean_y - a.mean_y) *
                ((a.n : ℚ) * (b.n : ℚ) / ((a.n : ℚ) + (b.n : ℚ)))) ^ 2 := by ring
            _ ≤ _ := hstep
  | reset s t _ => exact ⟨le_refl 0, le_refl 0, by norm_num [OnlineCovariance.reset]⟩

/-- C10: in every reachable `OnlineCovariance` state the Cauchy-Schwarz
inequality `c² ≤ m2x * m2y` holds, and consequently any defined (non-NaN)
`correlation()` value lies in `[-1, 1]`. -/
theorem claim_C10_cauchy_schwarz_correlation_bounds (s : OnlineCovariance)
    (h : CovReachable s) :
    s.c ^ 2 ≤ s.m2_x * s.m2_y ∧
    (∀ r : ℝ, s.correlation = some r → -1 ≤ r ∧ r ≤ 1) := by
  obtain ⟨hmx, hmy, hcs⟩ := cov_reachable_psd h
  refine ⟨hcs, fun r hr => ?_⟩
  cases hb : s.ready with
  | false =>
      rw [OnlineCovariance.correlation_of_not_ready hb] at hr
      exact absurd hr (by simp)
  | true =>
      obtain ⟨h2n, hvx, hvy⟩ := (OnlineCovariance.ready_iff_moments s).mp hb
      have h1 : 1 ≤ s.n := by omega
      have hNpos : (0:ℚ) < (s.n : ℚ) := by exact_mod_cast (by omega : 0 < s.n)
      have heps2 : (0:ℚ) < fastnumEps * fastnumEps := by norm_num [fastnumEps]
      have hxpos : 0 < s.m2_x := by
        have hv : 0 < s.m2_x / (s.n : ℚ) := lt_trans heps2 hvx
        have := mul_pos hv hNpos
        rwa [div_mul_cancel₀ _ (ne_of_gt hNpos)] at this
      have hypos : 0 < s.m2_y := by
        have hv : 0 < s.m2_y / (s.n : ℚ) := lt_trans heps2 hvy
        have := mul_pos hv hNpos
        rwa [div_mul_cancel₀ _ (ne_of_gt hNpos)] at this
      rw [OnlineCovariance.correlation, if_neg (by simp [hb]),
        OnlineCovariance.variance_x_population_of_pos h1,
        OnlineCovariance.variance_y_population_of_pos h1,
        OnlineCovariance.covariance_population_of_pos h1] at hr
      simp only [Option.getD_some] at hr
      by_cases hd : Real.sqrt (((s.m2_x / (s.n : ℚ) : ℚ) : ℝ) *
          ((s.m2_y / (s.n : ℚ) : ℚ) : ℝ)) ≤ ((fastnumEps : ℚ) : ℝ)
      · rw [if_pos hd] at hr
        exact absurd hr (by simp)
      · rw [if_neg hd] at hr
        have hre : r = ((s.c / (s.n : ℚ) : ℚ) : ℝ) /
            Real.sqrt (((s.m2_x / (s.n : ℚ) : ℚ) : ℝ) *
              ((s.m2_y / (s.n : ℚ) : ℚ) : ℝ)) := (Option.some_inj.mp hr).symm
        have hNposR : (0:ℝ) < ((s.n : ℚ) : ℝ) := by exact_mod_cast hNpos
        have hXposR : (0:ℝ) < ((s.m2_x : ℚ) : ℝ) := by exact_mod_cast hxpos
        have hYposR : (0:ℝ) < ((s.m2_y : ℚ) : ℝ) := by exact_mod_cast hypos
        have hc1 : ((s.m2_x / (s.n : ℚ) : ℚ) : ℝ) =
            ((s.m2_x : ℚ) : ℝ) / ((s.n : ℚ) : ℝ) := by push_cast; ring
        have hc2 : ((s.m2_y / (s.n : ℚ) : ℚ) : ℝ) =
            ((s.m2_y : ℚ) : ℝ) / ((s.n : ℚ) : ℝ) := by push_cast; ring
        have hc3 : ((s.c / (s.n : ℚ) : ℚ) : ℝ) =
            ((s.c : ℚ) : ℝ) / ((s.n : ℚ) : ℝ) := by push_cast; ring
        rw [hc1, hc2, hc3] at hre
        have hprod : ((s.m2_x : ℚ) : ℝ) / ((s.n : ℚ) : ℝ) *
            (((s.m2_y : ℚ) : ℝ) / ((s.n : ℚ) : ℝ)) =
            (((s.m2_x : ℚ) : ℝ) * ((s.m2_y : ℚ) : ℝ)) / ((s.n : ℚ) : ℝ) ^ 2 := by
          ring
        have hsqrt : Real.sqrt (((s.m2_x : ℚ) : ℝ) / ((s.n : ℚ) : ℝ) *
            (((s.m2_y : ℚ) : ℝ) / ((s.n : ℚ) : ℝ))) =
            Real.sqrt (((s.m2_x : ℚ) : ℝ) * ((s.m2_y : ℚ) : ℝ)) /
              ((s.n : ℚ) : ℝ) := by
          rw [hprod, Real.sqrt_div (by positivity), Real.sqrt_sq hNposR.le]
        have hQpos : (0:ℝ) <
            Real.sqrt (((s.m2_x : ℚ) : ℝ) * ((s.m2_y : ℚ) : ℝ)) :=
          Real.sqrt_pos.mpr (by positivity)
        have hr' : r = ((s.c : ℚ) : ℝ) /
            Real.sqrt (((s.m2_x : ℚ) : ℝ) * ((s.m2_y : ℚ) : ℝ)) := by
          rw [hre, hsqrt]
          field_simp
        have hr2 : r ^ 2 ≤ 1 := by
          rw [hr', div_pow, Real.sq_sqrt (by positivity)]
          rw [div_le_one (by positivity)]
          exact_mod_cast hcs
        constructor
        · nlinarith [sq_nonneg (r + 1)]
        · nlinarith [sq_nonneg (r - 1)]

/-- Witness for C10 at the reachable state obtained by observing the pairs
`(0,0)` and `(1,1)`. -/
theorem claim_C10_cauchy_schwarz_correlation_bounds_witness :
    CovReachable ((OnlineCovariance.empty.observe 0 0).observe 1 1) ∧
    ((OnlineCovariance.empty.observe 0 0).observe 1 1).c ^ 2 ≤
      ((OnlineCovariance.empty.observe 0 0).observe 1 1).m2_x *
        ((OnlineCovariance.empty.observe 0 0).observe 1 1).m2_y :=
  ⟨CovReachable.observe _ 1 1 (CovReachable.observe _ 0 0 CovReachable.empty),
    (claim_C10_cauchy_schwarz_correlation_bounds _
      (CovReachable.observe _ 1 1
        (CovReachable.observe _ 0 0 CovReachable.empty))).1⟩

/-! ## Readiness is not monotone: pushing the current mean leaves `m2` fixed
while `count` grows, so the population variance `m2 / count` decays and can
cross the `eps²` floor, flipping `ready()` back to `false` with no reset. -/

theorem RunningStats.push_self_mean (s : RunningStats) :
    s.push s.mean = ⟨s.n + 1, s.mean, s.m2⟩ := by
  simp [RunningStats.push]

theorem RunningStats.foldl_push_replicate_mean (k : ℕ) :
    ∀ (s : RunningStats) (m : ℚ), m = s.mean →
      (List.replicate k m).foldl RunningStats.push s = ⟨s.n + k, s.mean, s.m2⟩ := by
  induction k with
  | zero =>
      intro s m _
      cases s
      simp
  | succ k ih =>
      intro s m hm
      rw [List.replicate_succ, List.foldl_cons, hm, RunningStats.push_self_mean,
        ih ⟨s.n + 1, s.mean, s.m2⟩ s.mean rfl]
      simp only [RunningStats.mk.injEq, and_true]
      omega

/-- C6 counterexample: on the non-constant stream beginning `0, 1e-10` the
scaler becomes ready, but after 4998 further observations of the running mean
`5e-11` the population variance has decayed to exactly `1e-24 = eps²` and
`ready()` flips back to `false` with no reset ever issued. -/
theorem claim_C6_readiness_monotonicity_counterexample :
    (OnlineStandardScaler.ofList [0, 1/10^10]).ready = true ∧
    (OnlineStandardScaler.ofList
        ([0, 1/10^10] ++ List.replicate 4998 (1/(2 * 10^10)))).ready = false ∧
    (0 : ℚ) ∈ ([0, 1/10^10] ++ List.replicate 4998 (1/(2 * 10^10)) : List ℚ) ∧
    (1/10^10 : ℚ) ∈ ([0, 1/10^10] ++ List.replicate 4998 (1/(2 * 10^10)) : List ℚ) ∧
    (0 : ℚ) ≠ 1/10^10 := by
  have hpush1 : RunningStats.empty.push 0 = ⟨1, 0, 0⟩ := by
    rw [RunningStats.push]
    norm_num [RunningStats.empty]
  have hpush2 : (RunningStats.mk 1 0 0).push (1/10^10) =
      ⟨2, 1/(2 * 10^10), 1/(2 * 10^20)⟩ := by
    rw [RunningStats.push]
    norm_num
  have hstate : OnlineStandardScaler.ofList [0, 1/10^10] =
      ⟨⟨2, 1/(2 * 10^10), 1/(2 * 10^20)⟩⟩ := by
    show OnlineStandardScaler.observe
      (OnlineStandardScaler.observe OnlineStandardScaler.empty 0) (1/10^10) = _
    rw [OnlineStandardScaler.observe, OnlineStandardScaler.observe]
    show OnlineStandardScaler.mk ((RunningStats.empty.push 0).push (1/10^10)) = _
    rw [hpush1, hpush2]
  refine ⟨?_, ?_,
    List.mem_append_left _ (List.mem_cons_self 0 _),
    List.mem_append_left _
      (List.mem_cons_of_mem 0 (List.mem_cons_self (1/10^10) [])),
    by norm_num⟩
  · rw [hstate, OnlineStandardScaler.ready_iff_variance]
    norm_num [fastnumEps]
  · have hsplit : OnlineStandardScaler.ofList
        ([0, 1/10^10] ++ List.replicate 4998 (1/(2 * 10^10))) =
        ⟨⟨5000, 1/(2 * 10^10), 1/(2 * 10^20)⟩⟩ := by
      rw [OnlineStandardScaler.ofList, List.foldl_append]
      have e1 : List.foldl OnlineStandardScaler.observe
          OnlineStandardScaler.empty [0, 1/10^10] =
          ⟨⟨2, 1/(2 * 10^10), 1/(2 * 10^20)⟩⟩ := hstate
      rw [e1, ← OnlineStandardScaler.foldl_observe,
        RunningStats.foldl_push_replicate_mean 4998 _ _ rfl]
    rw [hsplit]
    have hnot : ¬ ((OnlineStandardScaler.mk
        ⟨5000, 1/(2 * 10^10), 1/(2 * 10^20)⟩).ready = true) := by
      rw [OnlineStandardScaler.ready_iff_variance]
      rintro ⟨-, hv⟩
      norm_num [fastnumEps] at hv
    exact Bool.eq_false_iff.mpr hnot

/-- C6 (amended): once `ready()` is true it can still flip back to false under
further observations, but only because the population variance `m2 / count`
falls to `≤ eps²`: an observation never decreases `m2` and always increments
`count`, so the count condition and NaN condition of `ready()` can never again
fail without a reset. -/
theorem claim_C6_readiness_flip_only_by_variance_floor
    (s : OnlineStandardScaler) (x : ℚ) (hready : s.ready = true) :
    s.stats.m2 ≤ (s.observe x).stats.m2 ∧
    (s.observe x).stats.n = s.stats.n + 1 ∧
    ((s.observe x).ready = false →
      (s.observe x).stats.m2 / ((s.observe x).stats.n : ℚ) ≤
        fastnumEps * fastnumEps) := by
  obtain ⟨h2n, -⟩ := (OnlineStandardScaler.ready_iff_variance s).mp hready
  refine ⟨?_, rfl, fun hflip => ?_⟩
  · rw [OnlineStandardScaler.observe]
    show s.stats.m2 ≤ (s.stats.push x).m2
    rw [RunningStats.push_m2_increment]
    have : (0:ℚ) ≤ (x - s.stats.mean) ^ 2 *
        ((s.stats.n : ℚ) / ((s.stats.n : ℚ) + 1)) := by positivity
    linarith
  · by_contra hgt
    push_neg at hgt
    have h2n' : 2 ≤ (s.observe x).stats.n := by
      rw [OnlineStandardScaler.observe]
      show 2 ≤ (s.stats.push x).n
      rw [RunningStats.push_n]
      omega
    have : (s.observe x).ready = true :=
      (OnlineStandardScaler.ready_iff_variance _).mpr ⟨h2n', hgt⟩
    rw [this] at hflip
    exact absurd hflip (by simp)

/-- Witness for the amended C6 at the ready scaler `⟨⟨2, 1/2, 1/2⟩⟩` and a
further observation of `0`. -/
theorem claim_C6_readiness_flip_only_by_variance_floor_witness :
    (OnlineStandardScaler.mk (RunningStats.mk 2 (1/2) (1/2))).ready = true ∧
    (OnlineStandardScaler.mk (RunningStats.mk 2 (1/2) (1/2))).stats.m2 ≤
      ((OnlineStandardScaler.mk (RunningStats.mk 2 (1/2) (1/2))).observe 0).stats.m2 := by
  have hready : (OnlineStandardScaler.mk (RunningStats.mk 2 (1/2) (1/2))).ready = true := by
    rw [OnlineStandardScaler.ready_iff_variance]
    refine ⟨by norm_num, ?_⟩
    norm_num [fastnumEps]
  exact ⟨hready,
    (claim_C6_readiness_flip_only_by_variance_floor _ 0 hready).1⟩

/-- C10 counterexample: the claim "whenever `ready()` is true, `correlation()`
lies in [-1, 1]" fails on the reachable state after observing `(0,0)` then
`(2e-7, 2e-7)`: both population variances equal `1e-14`, so `ready()` is true
(`1e-14 > eps² = 1e-24`) yet `correlation()` is NaN, because its own guard
fires (`sqrt(vx*vy) = 1e-14 ≤ eps = 1e-12`) — the two guards use different
floors, and no value in `[-1, 1]` is returned. -/
theorem claim_C10_ready_but_correlation_nan_counterexample :
    CovReachable ((OnlineCovariance.empty.observe 0 0).observe (2/10^7) (2/10^7)) ∧
    ((OnlineCovariance.empty.observe 0 0).observe (2/10^7) (2/10^7)).ready = true ∧
    ((OnlineCovariance.empty.observe 0 0).observe (2/10^7) (2/10^7)).correlation =
      none := by
  have h1 : OnlineCovariance.empty.observe 0 0 = ⟨1, 0, 0, 0, 0, 0⟩ := by
    rw [OnlineCovariance.observe]
    norm_num [OnlineCovariance.empty]
  have h2 : (OnlineCovariance.mk 1 0 0 0 0 0).observe (2/10^7) (2/10^7) =
      ⟨2, 1/10^7, 1/10^7, 2/10^14, 2/10^14, 2/10^14⟩ := by
    rw [OnlineCovariance.observe]
    norm_num
  have hstate : (OnlineCovariance.empty.observe 0 0).observe (2/10^7) (2/10^7) =
      ⟨2, 1/10^7, 1/10^7, 2/10^14, 2/10^14, 2/10^14⟩ := by
    rw [h1, h2]
  have hready : (OnlineCovariance.mk 2 (1/10^7) (1/10^7) (2/10^14) (2/10^14)
      (2/10^14)).ready = true := by
    rw [OnlineCovariance.ready_iff_moments]
    refine ⟨by norm_num, ?_, ?_⟩ <;> norm_num [fastnumEps]
  have hx : (((OnlineCovariance.mk 2 (1/10^7) (1/10^7) (2/10^14) (2/10^14)
      (2/10^14)).m2_x / ((OnlineCovariance.mk 2 (1/10^7) (1/10^7) (2/10^14)
      (2/10^14) (2/10^14)).n : ℚ) : ℚ) : ℝ) = 1/10^14 := by
    norm_num
  have hle : Real.sqrt ((((OnlineCovariance.mk 2 (1/10^7) (1/10^7) (2/10^14)
        (2/10^14) (2/10^14)).m2_x / ((OnlineCovariance.mk 2 (1/10^7) (1/10^7)
        (2/10^14) (2/10^14) (2/10^14)).n : ℚ) : ℚ) : ℝ) *
      (((OnlineCovariance.mk 2 (1/10^7) (1/10^7) (2/10^14) (2/10^14)
        (2/10^14)).m2_y / ((OnlineCovariance.mk 2 (1/10^7) (1/10^7) (2/10^14)
        (2/10^14) (2/10^14)).n : ℚ) : ℚ) : ℝ)) ≤ ((fastnumEps : ℚ) : ℝ) := by
    rw [hx, show ((1:ℝ)/10^14) * ((1:ℝ)/10^14) = ((1:ℝ)/10^14)^2 by norm_num,
      Real.sqrt_sq (by norm_num)]
    norm_num [fastnumEps]
  refine ⟨CovReachable.observe _ _ _
      (CovReachable.observe _ 0 0 CovReachable.empty), ?_, ?_⟩
  · rw [hstate]
    exact hready
  · rw [hstate]
    exact OnlineCovariance.correlation_of_ready_low hready hle
